import Mathlib

/-!
Verification development for the cache coordination engine of the
remix-cache repository: shallow embedding of the deduplicator, the
circuit breaker, the versioned (serverless) cache, the tag/pattern
indices and the per-definition get/set/invalidate protocol, together
with theorems settling the frozen specification claims.

Modeling conventions:
* times are absolute milliseconds (`Nat`); TTLs are seconds (`Nat`),
  converted with an explicit `* 1000` exactly where the code converts;
* JavaScript truthiness of optional numbers is modeled by `optTruthy`
  (`0`, `null` and `undefined` are falsy);
* the external store is an association list with per-entry absolute
  expiry; a flaky backend is modeled by failure flags on reads/writes;
* asynchronous fire-and-forget background refreshes are recorded in a
  trace of fetch starts (key, started-through-deduplicator flag); their
  store effects happen after the modeled call returns and are therefore
  not applied to the returned state.
-/

namespace RemixCache

/-- JavaScript values relevant to the cache: `base n` stands for any
value that does not have both a `data` and an `expiresAt` property
(`base 0` standing for the falsy primitives), while
`envelope data expiresAt staleUntil` is an object carrying both a
`data` and an `expiresAt` property (`none` = property absent or
`undefined`), the shape produced by `set` under stale-while-revalidate. -/
inductive JVal where
  | base (n : Nat)
  | envelope (data : JVal) (expiresAt : Option Nat) (staleUntil : Option Nat)
deriving DecidableEq, Repr

/-- Truthiness of an optional JavaScript number: `undefined` and `0` are falsy. -/
def optTruthy : Option Nat → Bool
  | some n => n != 0
  | none => false

/-- Truthiness of a modeled JavaScript value: `base 0` models the falsy
primitives; objects are always truthy. -/
def jvalTruthy : JVal → Bool
  | .base n => n != 0
  | .envelope _ _ _ => true

/-- Result of `CacheDefinitionImpl.unwrapValue`. -/
structure Unwrapped where
  data : JVal
  isStale : Bool
  isPastStale : Bool
deriving DecidableEq, Repr

/-- Embedding of `CacheDefinitionImpl.unwrapValue`: a value that has both a
`data` and an `expiresAt` property is unwrapped, with staleness flags taken
from its truthy timestamps; any other value is treated as fresh. -/
def unwrapValue (now : Nat) : JVal → Unwrapped
  | .base n => ⟨.base n, false, false⟩
  | .envelope d e s =>
      ⟨d, if optTruthy e then decide (now > e.getD 0) else false,
          if optTruthy s then decide (now > s.getD 0) else false⟩

/-- Embedding of `buildCacheKey` from `utils/key-builder`. -/
def buildCacheKey (pfx name key : String) : String :=
  pfx ++ ":" ++ name ++ ":" ++ key

/-- Key of a tag set, as interpolated in `TagManager.addTags`. -/
def tagKeyOf (pfx tag : String) : String :=
  pfx ++ ":tag:" ++ tag

/-- Key of a pattern bucket, as interpolated in `PatternMatcher.trackKey`. -/
def patternKeyOf (pfx bucket : String) : String :=
  pfx ++ ":pattern:" ++ bucket

/-- Key of a version counter, as interpolated in `VersionedCache`: the
argument `key` is already the full cache key, so the prefix appears twice. -/
def versionKeyOf (pfx key : String) : String :=
  pfx ++ ":version:" ++ key

/-- Key of a versioned physical payload, as interpolated in `VersionedCache`:
the argument `key` is already the full cache key `prefix:name:instanceKey`. -/
def versionedKeyOf (pfx key : String) (version : Nat) : String :=
  pfx ++ ":" ++ key ++ ":v" ++ toString version

/-- Modelled from the spec: the persisted-key-layout section of the spec
states the versioned payload key layout as
`{prefix}:{name}:{instanceKey}:v{N}`, with a single prefix; this definition
follows the spec words, to be compared with `versionedKeyOf` (built from the
source). -/
def specVersionedPayloadKey (pfx name ikey : String) (version : Nat) : String :=
  pfx ++ ":" ++ name ++ ":" ++ ikey ++ ":v" ++ toString version

/-- JavaScript `String.prototype.split` on a single-character separator,
at the character-list level (`""` splits to `[""]`, separators at the ends
produce empty segments). -/
def splitOnChar (c : Char) : List Char → List (List Char)
  | [] => [[]]
  | x :: xs =>
      if x = c then [] :: splitOnChar c xs
      else
        match splitOnChar c xs with
        | [] => [[x]]
        | h :: t => (x :: h) :: t

/-- Cache-name segment a key is bucketed under in `PatternMatcher.trackKey`:
the key is split on `:` and the second segment is the bucket; keys with
fewer than three segments are not tracked. -/
def bucketName (key : String) : Option String :=
  let parts := splitOnChar ':' key.data
  if parts.length < 3 then none
  else (parts[1]?).map (fun l => String.mk l)

/-- Text of a pattern before its first occurrence of `:*`, embedding
`pattern.replace(/:\*.*$/, '')` in `PatternMatcher.getKeysByPattern`
(patterns are assumed newline-free, so `.*$` reaches the end). -/
def stripColonStar : List Char → List Char
  | [] => []
  | [c] => [c]
  | c :: d :: rest =>
      if c = ':' ∧ d = '*' then []
      else c :: stripColonStar (d :: rest)

/-- Helper for `globMatch`: tries the continuation on every suffix of the
subject, which is exactly what `.*` may consume in an anchored regex. -/
def globStar (f : List Char → Bool) : List Char → Bool
  | [] => f []
  | x :: s => f (x :: s) || globStar f s

/-- Embedding of `patternToRegex` plus `RegExp.test`: the code escapes every
regex metacharacter except `*` and maps `*` to `.*` in an anchored regex, so
the match relation is exactly glob matching with `*` as the only wildcard
(subjects are assumed newline-free). -/
def globMatch : List Char → List Char → Bool
  | [], s => s.isEmpty
  | c :: ps, s =>
      if c = '*' then globStar (globMatch ps) s
      else
        match s with
        | [] => false
        | x :: s1 => c == x && globMatch ps s1

/-- Values held by the external store: serialized cache payloads, numeric
counter strings (version counters) and sets (tag sets, pattern buckets). -/
inductive RVal where
  | str (v : JVal)
  | num (n : Nat)
  | sset (members : List String)
deriving DecidableEq, Repr

/-- One persisted entry: key, value and optional absolute expiry (ms). -/
structure StoreEntry where
  key : String
  val : RVal
  expireAt : Option Nat
deriving DecidableEq, Repr

/-- The external key-value store, keyed uniquely by `StoreEntry.key`. -/
structure Store where
  entries : List StoreEntry
deriving DecidableEq, Repr

/-- Entry for a key if it is present and not past its expiry at `now`
(a key expires once the current time exceeds its expiry instant). -/
def Store.liveEntry (s : Store) (now : Nat) (k : String) : Option StoreEntry :=
  match s.entries.find? (fun e => e.key == k) with
  | none => none
  | some e =>
      match e.expireAt with
      | none => some e
      | some exp => if now ≤ exp then some e else none

/-- Live value for a key at `now`. -/
def Store.lookupLive (s : Store) (now : Nat) (k : String) : Option RVal :=
  (s.liveEntry now k).map (·.val)

/-- Raw expiry recorded for a key, regardless of liveness. -/
def Store.expiryOf (s : Store) (k : String) : Option (Option Nat) :=
  (s.entries.find? (fun e => e.key == k)).map (·.expireAt)

/-- Insert or replace the entry for a key. -/
def Store.put (s : Store) (k : String) (v : RVal) (exp : Option Nat) : Store :=
  ⟨⟨k, v, exp⟩ :: s.entries.filter (fun e => e.key != k)⟩

/-- Redis `SETEX key ttlSeconds value`: write with expiry `now + ttl·1000` ms. -/
def Store.setex (s : Store) (now : Nat) (k : String) (ttlSec : Nat) (v : JVal) : Store :=
  s.put k (.str v) (some (now + ttlSec * 1000))

/-- Redis `SET key value` without expiry (clears any previous TTL). -/
def Store.setPlain (s : Store) (k : String) (v : JVal) : Store :=
  s.put k (.str v) none

/-- Redis `EXPIRE key ttlSeconds`: refresh the expiry of a live key. -/
def Store.expireKey (s : Store) (now : Nat) (k : String) (ttlSec : Nat) : Store :=
  match s.liveEntry now k with
  | none => s
  | some e => s.put k e.val (some (now + ttlSec * 1000))

/-- Redis `INCR key`: a missing (or expired) key becomes 1; a live counter is
incremented, keeping its expiry; a non-counter value is a type error. -/
def Store.incr (s : Store) (now : Nat) (k : String) : Except Unit (Nat × Store) :=
  match s.liveEntry now k with
  | none => .ok (1, s.put k (.num 1) none)
  | some e =>
      match e.val with
      | .num n => .ok (n + 1, s.put k (.num (n + 1)) e.expireAt)
      | _ => .error ()

/-- Redis `SADD key member`: add a member to a set, creating it if absent. -/
def Store.sadd (s : Store) (now : Nat) (k m : String) : Except Unit Store :=
  match s.liveEntry now k with
  | none => .ok (s.put k (.sset [m]) none)
  | some e =>
      match e.val with
      | .sset ms => .ok (s.put k (.sset (if ms.contains m then ms else ms ++ [m])) e.expireAt)
      | _ => .error ()

/-- Redis `SREM key member`. -/
def Store.srem (s : Store) (now : Nat) (k m : String) : Except Unit Store :=
  match s.liveEntry now k with
  | none => .ok s
  | some e =>
      match e.val with
      | .sset ms => .ok (s.put k (.sset (ms.filter (· != m))) e.expireAt)
      | _ => .error ()

/-- Redis `SMEMBERS key`: members of a live set, `[]` for a missing key. -/
def Store.smembers (s : Store) (now : Nat) (k : String) : Except Unit (List String) :=
  match s.liveEntry now k with
  | none => .ok []
  | some e =>
      match e.val with
      | .sset ms => .ok ms
      | _ => .error ()

/-- Redis `DEL key...`: remove the named keys. -/
def Store.del (s : Store) (ks : List String) : Store :=
  ⟨s.entries.filter (fun e => !(ks.contains e.key))⟩

/-- Errors visible to cache callers: backend store failures and failures of
the user-supplied fetch function. -/
inductive Err where
  | store
  | fetch
deriving DecidableEq, Repr

/-- The shared store as seen through its client: `getFails` makes every read
primitive reject and `writeFails` every mutating primitive, which models a
failing or partially failing backend. -/
structure Redis where
  getFails : Bool
  writeFails : Bool
  store : Store
deriving DecidableEq, Repr

/-- Client `get`. -/
def Redis.rget (r : Redis) (now : Nat) (k : String) : Except Err (Option RVal) :=
  if r.getFails then .error .store else .ok (r.store.lookupLive now k)

/-- Client `mget`: never a type error — non-string keys yield `null`. -/
def Redis.rmget (r : Redis) (now : Nat) (ks : List String) :
    Except Err (List (Option JVal)) :=
  if r.getFails then .error .store
  else .ok (ks.map (fun k =>
    match r.store.lookupLive now k with
    | some (.str v) => some v
    | _ => none))

/-- Client `smembers`. -/
def Redis.rsmembers (r : Redis) (now : Nat) (k : String) : Except Err (List String) :=
  if r.getFails then .error .store
  else match r.store.smembers now k with
    | .ok ms => .ok ms
    | .error _ => .error .store

/-- Client `setex`. -/
def Redis.rsetex (r : Redis) (now : Nat) (k : String) (ttlSec : Nat) (v : JVal) :
    Except Err Redis :=
  if r.writeFails then .error .store else .ok { r with store := r.store.setex now k ttlSec v }

/-- Client `set`. -/
def Redis.rset (r : Redis) (k : String) (v : JVal) : Except Err Redis :=
  if r.writeFails then .error .store else .ok { r with store := r.store.setPlain k v }

/-- Client `set` for a counter value (the code writes the string `'0'`). -/
def Redis.rsetCounter (r : Redis) (k : String) (n : Nat) : Except Err Redis :=
  if r.writeFails then .error .store else .ok { r with store := r.store.put k (.num n) none }

/-- Client `expire`. -/
def Redis.rexpire (r : Redis) (now : Nat) (k : String) (ttlSec : Nat) : Except Err Redis :=
  if r.writeFails then .error .store else .ok { r with store := r.store.expireKey now k ttlSec }

/-- Client `incr`. -/
def Redis.rincr (r : Redis) (now : Nat) (k : String) : Except Err (Nat × Redis) :=
  if r.writeFails then .error .store
  else match r.store.incr now k with
    | .ok (n, st) => .ok (n, { r with store := st })
    | .error _ => .error .store

/-- Client `sadd`. -/
def Redis.rsadd (r : Redis) (now : Nat) (k m : String) : Except Err Redis :=
  if r.writeFails then .error .store
  else match r.store.sadd now k m with
    | .ok st => .ok { r with store := st }
    | .error _ => .error .store

/-- Client `srem`. -/
def Redis.rsrem (r : Redis) (now : Nat) (k m : String) : Except Err Redis :=
  if r.writeFails then .error .store
  else match r.store.srem now k m with
    | .ok st => .ok { r with store := st }
    | .error _ => .error .store

/-- Client `del`. -/
def Redis.rdel (r : Redis) (ks : List String) : Except Err Redis :=
  if r.writeFails then .error .store else .ok { r with store := r.store.del ks }

/-- The in-process `LocalCache` (an lru-cache wrapper): key, stored value and
optional absolute expiry; capacity-based eviction is not involved in any
claim and is abstracted away. -/
def LocalStore := List (String × JVal × Option Nat)

instance : DecidableEq LocalStore := by
  unfold LocalStore
  infer_instance

instance : Repr LocalStore := by
  unfold LocalStore
  infer_instance

/-- `LocalCache.get`: a value is returned while it is within its expiry. -/
def lcGet (lc : LocalStore) (now : Nat) (k : String) : Option JVal :=
  match lc.find? (fun e => e.1 == k) with
  | none => none
  | some (_, v, none) => some v
  | some (_, v, some exp) => if now ≤ exp then some v else none

/-- `LocalCache.set`: `ttl` seconds are converted to ms (`ttl ? ttl*1000 :
undefined`), so a falsy TTL stores without expiry. -/
def lcSet (lc : LocalStore) (now : Nat) (k : String) (v : JVal) (ttlSec : Option Nat) :
    LocalStore :=
  (k, v, if optTruthy ttlSec then some (now + ttlSec.getD 0 * 1000) else none) ::
    lc.filter (fun e => e.1 != k)

/-- `LocalCache.delete`. -/
def lcDelete (lc : LocalStore) (k : String) : LocalStore :=
  lc.filter (fun e => e.1 != k)

/-- Pending-fetch registrations of the in-process `Deduplicator`, keyed by
cache key; the payload is an identifier of the in-flight promise. -/
def PendingMap := List (String × Nat)

instance : DecidableEq PendingMap := by
  unfold PendingMap
  infer_instance

/-- Pending promise registered for a key, if any. -/
def pendingFor (m : PendingMap) (k : String) : Option Nat :=
  (m.find? (fun e => e.1 == k)).map (·.2)

/-- Embedding of `Deduplicator.run`: when a pending promise exists for the
key it is returned and the function is not started (third component
`false`); otherwise the fresh promise is started and registered. -/
def Deduplicator.runStep (m : PendingMap) (k : String) (freshId : Nat) :
    PendingMap × Nat × Bool :=
  match (m.find? (fun e => e.1 == k)) with
  | some p => (m, p.2, false)
  | none => ((k, freshId) :: m, freshId, true)

/-- Embedding of the `finally` cleanup in `Deduplicator.run`: the
registration for the key is removed when its promise settles; `succeeded`
is the settlement outcome, which the cleanup ignores. -/
def Deduplicator.settleStep (m : PendingMap) (k : String) (succeeded : Bool) : PendingMap :=
  m.filter (fun e => e.1 != k)

/-- Circuit breaker status. -/
inductive CBStatus where
  | closed
  | opened
  | halfOpen
deriving DecidableEq, Repr

/-- Mutable state of `CircuitBreaker` (`state`, `failures`, `nextAttempt`,
`halfOpenSuccesses`). -/
structure CBState where
  status : CBStatus
  failures : Nat
  nextAttempt : Nat
  halfOpenSuccesses : Nat
deriving DecidableEq, Repr

/-- Initial circuit breaker state (also the state after `reset()`). -/
def CBState.init : CBState := ⟨.closed, 0, 0, 0⟩

/-- Constructor parameters of `CircuitBreaker`, with their default values. -/
structure CBConfig where
  threshold : Nat := 5
  timeout : Nat := 30000
  halfOpenRequests : Nat := 3
deriving DecidableEq, Repr

/-- The configuration obtained when no option is supplied. -/
def defaultCBConfig : CBConfig := {}

/-- Embedding of `CircuitBreaker.onSuccess`. -/
def CircuitBreaker.onSuccess (cfg : CBConfig) (s : CBState) : CBState :=
  if s.status == .halfOpen then
    let h := s.halfOpenSuccesses + 1
    if cfg.halfOpenRequests ≤ h then
      { s with status := .closed, failures := 0, halfOpenSuccesses := h }
    else { s with halfOpenSuccesses := h }
  else { s with failures := 0 }

/-- Embedding of `CircuitBreaker.onFailure`. -/
def CircuitBreaker.onFailure (cfg : CBConfig) (now : Nat) (s : CBState) : CBState :=
  let f := s.failures + 1
  if cfg.threshold ≤ f then
    { s with status := .opened, failures := f, nextAttempt := now + cfg.timeout }
  else { s with failures := f }

/-- Entry check of `CircuitBreaker.execute`: in the open state, before the
cool-down instant only the fallback runs (`none`); at or after it the
breaker moves to half-open with a reset probe counter; otherwise the
primary runs in the current state. -/
def CircuitBreaker.entry (s : CBState) (now : Nat) : Option CBState :=
  if s.status == .opened then
    if now < s.nextAttempt then none
    else some { s with status := .halfOpen, halfOpenSuccesses := 0 }
  else some s

/-- What one call to `CircuitBreaker.execute` did. -/
inductive CBAction where
  | fallbackOnly
  | primarySuccess
  | primaryFailure
deriving DecidableEq, Repr

/-- One call to `CircuitBreaker.execute`, with the primary's outcome given
by `primaryFails`: the action records whether the primary was attempted and
how it ended (on failure the error goes to the side-channel handler and the
fallback runs; the error is not re-thrown). -/
def CircuitBreaker.executeStep (cfg : CBConfig) (s : CBState) (now : Nat)
    (primaryFails : Bool) : CBState × CBAction :=
  match CircuitBreaker.entry s now with
  | none => (s, .fallbackOnly)
  | some s1 =>
      if primaryFails then (CircuitBreaker.onFailure cfg now s1, .primaryFailure)
      else (CircuitBreaker.onSuccess cfg s1, .primarySuccess)

/-- Breaker states reachable from the initial state by any sequence of
`execute` calls and `reset`s. -/
inductive CBReachable (cfg : CBConfig) : CBState → Prop where
  | init : CBReachable cfg CBState.init
  | step (s : CBState) (now : Nat) (primaryFails : Bool) :
      CBReachable cfg s →
      CBReachable cfg (CircuitBreaker.executeStep cfg s now primaryFails).1
  | reset (s : CBState) : CBReachable cfg s → CBReachable cfg CBState.init

/-- A cache definition's `ttl` option: absent/`false`, a number, a function
of the fetched data, or a `{duration, sliding}` object. -/
inductive TTLCfg where
  | absent
  | fixed (n : Nat)
  | byData (f : JVal → Nat)
  | window (duration : Nat) (sliding : Bool)

/-- The slice of `CacheDefinitionConfig` the modeled operations read:
`tags` is the resolved tag list for the call's arguments (`[]` when no tags
are configured) and `dedupe` is `config.dedupe !== false`. -/
structure DefCfg where
  name : String
  ttl : TTLCfg
  swr : Option Nat
  hasFetch : Bool
  dedupe : Bool
  tags : List String

/-- Embedding of `CacheDefinitionImpl.getTTL`: `false` and every falsy
configuration resolve to no TTL (so a configured `0` resolves to none), a
function is applied only when the data argument is truthy, and an object
yields its `duration`. -/
def DefCfg.getTTL (c : DefCfg) (data : Option JVal) : Option Nat :=
  match c.ttl with
  | .absent => none
  | .fixed n => if n = 0 then none else some n
  | .byData f =>
      match data with
      | some d => if jvalTruthy d then some (f d) else none
      | none => none
  | .window d _ => some d

/-- Embedding of `CacheDefinitionImpl.isSliding`. -/
def DefCfg.isSliding (c : DefCfg) : Bool :=
  match c.ttl with
  | .window _ s => s
  | _ => false

/-- Operating mode, fixed at construction. -/
inductive Mode where
  | server
  | serverless
deriving DecidableEq, Repr

/-- Construction-time context shared by every definition: key prefix, mode,
whether the local cache is enabled (server mode default) and the breaker
configuration. -/
structure Ctx where
  pfx : String
  mode : Mode
  localEnabled : Bool
  cbCfg : CBConfig

/-- Observability events emitted on the registry's emitter; the `error`
event is the circuit breaker's side-channel handler installed by the
registry constructor. -/
inductive CacheEvent where
  | hitLocal (key : String)
  | hitRedis (key : String)
  | missEvt (key : String)
  | setEvt (key : String) (ttl : Option Nat)
  | invalidateEvt (key : String)
  | errorEvt
deriving DecidableEq, Repr

/-- Mutable state threaded through one modeled operation: the store client,
the local cache, the events emitted so far, and the trace of fetch-function
invocations started so far as pairs (full key, started through the
deduplicator). -/
structure OpState where
  r : Redis
  lc : LocalStore
  events : List CacheEvent
  starts : List (String × Bool)
deriving DecidableEq, Repr

/-- Append an event. -/
def OpState.emit (st : OpState) (e : CacheEvent) : OpState :=
  { st with events := st.events ++ [e] }

/-- Record a started fetch-function invocation. -/
def OpState.start (st : OpState) (k : String) (viaDedup : Bool) : OpState :=
  { st with starts := st.starts ++ [(k, viaDedup)] }

/-- Embedding of `CacheDefinitionImpl.resetTTL`: refresh the store expiry
only when the resolved TTL is truthy and the TTL config is sliding. -/
def resetTTL (cfg : DefCfg) (now : Nat) (key : String) (data : Option JVal)
    (r : Redis) : Except Err Redis :=
  let ttl := cfg.getTTL data
  if optTruthy ttl && cfg.isSliding then r.rexpire now key (ttl.getD 0)
  else .ok r

/-- Embedding of `PatternMatcher.trackKey`: keys with at least three
`:`-separated segments are added to the bucket named by their second
segment. -/
def trackKey (pfx : String) (now : Nat) (key : String) (r : Redis) : Except Err Redis :=
  match bucketName key with
  | none => .ok r
  | some b => r.rsadd now (patternKeyOf pfx b) key

/-- Embedding of `TagManager.addTags`: one `SADD` per tag (a pipeline in the
code); an empty tag list issues no store operation. -/
def addTags (pfx : String) (now : Nat) (key : String) (tags : List String)
    (r : Redis) : Except Err Redis :=
  match tags with
  | [] => .ok r
  | t :: ts =>
      match r.rsadd now (tagKeyOf pfx t) key with
      | .error e => .error e
      | .ok r1 => addTags pfx now key ts r1

/-- Embedding of `VersionedCache.get`: read the version counter (missing or
expired reads as 0 — the code's `|| '0'`), then the payload under the
versioned physical key; a missing payload is `null`. Version keys hold
numeric strings; any other type at a version or payload key is a store
type error. -/
def versionedGet (pfx : String) (now : Nat) (key : String) (r : Redis) :
    Except Err (Option JVal) :=
  match r.rget now (versionKeyOf pfx key) with
  | .error e => .error e
  | .ok cnt =>
      match cnt with
      | some (.num v) =>
          match r.rget now (versionedKeyOf pfx key v) with
          | .error e => .error e
          | .ok none => .ok none
          | .ok (some (.str p)) => .ok (some p)
          | .ok (some _) => .error .store
      | none =>
          match r.rget now (versionedKeyOf pfx key 0) with
          | .error e => .error e
          | .ok none => .ok none
          | .ok (some (.str p)) => .ok (some p)
          | .ok (some _) => .error .store
      | some _ => .error .store

/-- Embedding of `VersionedCache.set`: a missing version counter is
initialized to 0 with a 24-hour expiry, then the payload is written under
the versioned physical key, with `SETEX` only for a truthy TTL. -/
def versionedSet (pfx : String) (now : Nat) (key : String) (v : JVal)
    (ttlSec : Option Nat) (r : Redis) : Except Err Redis :=
  match r.rget now (versionKeyOf pfx key) with
  | .error e => .error e
  | .ok cnt =>
      let init :=
        match cnt with
        | some (.num n) => Except.ok (n, r)
        | none =>
            match r.rsetCounter (versionKeyOf pfx key) 0 with
            | .error e => Except.error e
            | .ok r1 =>
                match r1.rexpire now (versionKeyOf pfx key) 86400 with
                | .error e => Except.error e
                | .ok r2 => Except.ok (0, r2)
        | some _ => Except.error Err.store
      match init with
      | .error e => .error e
      | .ok (v0, r1) =>
          if optTruthy ttlSec then r1.rsetex now (versionedKeyOf pfx key v0) (ttlSec.getD 0) v
          else r1.rset (versionedKeyOf pfx key v0) v

/-- Embedding of `VersionedCache.invalidate`: increment the version counter
(orphaning the old payload) and refresh the counter's 24-hour expiry. -/
def versionedInvalidate (pfx : String) (now : Nat) (key : String) (r : Redis) :
    Except Err Redis :=
  match r.rincr now (versionKeyOf pfx key) with
  | .error e => .error e
  | .ok (_, r1) => r1.rexpire now (versionKeyOf pfx key) 86400

/-- Embedding of `VersionedCache.invalidateMany`: the pipeline issues an
`INCR` and an `EXPIRE` per key. -/
def versionedInvalidateMany (pfx : String) (now : Nat) (keys : List String) (r : Redis) :
    Except Err Redis :=
  match keys with
  | [] => .ok r
  | k :: ks =>
      match versionedInvalidate pfx now k r with
      | .error e => .error e
      | .ok r1 => versionedInvalidateMany pfx now ks r1

/-- Value and physical TTL chosen by `set`: the value is wrapped with
`expiresAt = now + ttl·1000` and `staleUntil = now + (ttl + swr)·1000` and the
physical TTL extended to `ttl + swr` only when both the stale-while-revalidate
window and the resolved TTL are truthy. -/
def setWriteValue (cfg : DefCfg) (now : Nat) (data : JVal) : JVal × Option Nat :=
  let ttl := cfg.getTTL (some data)
  if optTruthy cfg.swr && optTruthy ttl then
    (JVal.envelope data (some (now + ttl.getD 0 * 1000))
      (some (now + (ttl.getD 0 + cfg.swr.getD 0) * 1000)),
     some (ttl.getD 0 + cfg.swr.getD 0))
  else (data, ttl)

/-- Store-write phase of `set`: the versioned store in serverless mode;
in server mode `SETEX` for a truthy physical TTL (plain `SET` otherwise)
plus the local cache when enabled. -/
def setStoreWrite (ctx : Ctx) (now : Nat) (key : String) (v : JVal) (sttl : Option Nat)
    (r : Redis) (lc : LocalStore) : Except Err (Redis × LocalStore) :=
  match ctx.mode with
  | .serverless => (versionedSet ctx.pfx now key v sttl r).map (fun r1 => (r1, lc))
  | .server =>
      let w := if optTruthy sttl then r.rsetex now key (sttl.getD 0) v else r.rset key v
      w.map (fun r1 => (r1, if ctx.localEnabled then lcSet lc now key v sttl else lc))

/-- Index phase of `set`: pattern-bucket tracking then tag sets; an error
carries the store as mutated so far. -/
def setIndexing (ctx : Ctx) (cfg : DefCfg) (now : Nat) (key : String) (r1 : Redis) :
    Except (Err × Redis) Redis :=
  match trackKey ctx.pfx now key r1 with
  | .error e => .error (e, r1)
  | .ok r2 =>
      match addTags ctx.pfx now key cfg.tags r2 with
      | .error e => .error (e, r2)
      | .ok r3 => .ok r3

/-- Embedding of `CacheDefinitionImpl.set` for one call: resolve the TTL,
wrap the value and extend the physical TTL per `setWriteValue`, write
through to the backing store (`setStoreWrite`), update the pattern bucket
and the tag sets (`setIndexing`), and emit a `set` event carrying the
resolved (unextended) TTL. On a thrown error the state mutated so far is
kept and no event is emitted. -/
def setOp (ctx : Ctx) (cfg : DefCfg) (now : Nat) (ikey : String) (data : JVal)
    (st : OpState) : OpState × Option Err :=
  let key := buildCacheKey ctx.pfx cfg.name ikey
  let ttl := cfg.getTTL (some data)
  let vs := setWriteValue cfg now data
  match setStoreWrite ctx now key vs.1 vs.2 st.r st.lc with
  | .error e => (st, some e)
  | .ok (r1, lc1) =>
      match setIndexing ctx cfg now key r1 with
      | .error (e, rX) => ({ st with r := rX, lc := lc1 }, some e)
      | .ok r3 => (({ st with r := r3, lc := lc1 }).emit (.setEvt key ttl), none)

/-- Embedding of `CacheDefinitionImpl.fetchAndCache`: invoke the configured
fetch function (recording the invocation with its deduplication flag) and,
when it yields a non-null value, store it via `set`; fetch errors and
errors thrown by the embedded `set` both propagate. `fetchResult` is what
the user fetch function returns for this call's arguments. -/
def fetchAndCache (ctx : Ctx) (cfg : DefCfg) (now : Nat) (ikey : String)
    (fetchResult : Except Unit (Option JVal)) (viaDedup : Bool) (st : OpState) :
    Except Err (Option JVal) × OpState :=
  if !cfg.hasFetch then (.ok none, st)
  else
    let key := buildCacheKey ctx.pfx cfg.name ikey
    let st1 := st.start key viaDedup
    match fetchResult with
    | .error _ => (.error .fetch, st1)
    | .ok none => (.ok none, st1)
    | .ok (some d) =>
        match setOp ctx cfg now ikey d st1 with
        | (st2, some e) => (.error e, st2)
        | (st2, none) => (.ok (some d), st2)

/-- Pending deduplicator registrations as seen by `get`, carrying the value
the registered in-flight future eventually settles with. -/
def DedupState := List (String × Except Err (Option JVal))

/-- Pending future's eventual result for a key, if one is registered. -/
def dedupLookup (dd : DedupState) (k : String) : Option (Except Err (Option JVal)) :=
  (dd.find? (fun e => e.1 == k)).map (·.2)

/-- Embedding of `this.deduplicator.run(key, () => this.fetchAndCache(...))`
as used by `get`: an existing pending future is awaited and its result
returned without invoking the fetch function; otherwise the fetch runs
through the deduplicator (in this sequential model the fresh registration
is created and then removed again at settlement within the same call —
`Deduplicator.runStep` and `Deduplicator.settleStep` capture those two
halves — so the pending map is returned unchanged). -/
def dedupFetch (ctx : Ctx) (cfg : DefCfg) (now : Nat) (ikey key : String)
    (fetchResult : Except Unit (Option JVal)) (dd : DedupState) (st : OpState) :
    Except Err (Option JVal) × OpState :=
  match dedupLookup dd key with
  | some pres => (pres, st)
  | none => fetchAndCache ctx cfg now ikey fetchResult true st

deriving instance DecidableEq for Except

/-- Outcome of the local-cache phase of server-mode `get`: either the call
returns without touching the store path, or it falls through to it. -/
inductive LocalOutcome where
  | ret (result : Except Err (Option JVal)) (st : OpState)
  | fall (st : OpState)
deriving DecidableEq, Repr

/-- Embedding of the local-cache phase of server-mode `get`
(lines checking `this.localCache`): a past-stale hit is evicted and falls
through as a miss; a stale hit with a configured fetch returns the stale
payload and starts a direct (non-deduplicated) background refresh; a fresh
hit optionally resets a sliding store TTL (an error there propagates) and
returns the payload. -/
def localPhase (ctx : Ctx) (cfg : DefCfg) (now : Nat) (key : String) (st : OpState) :
    LocalOutcome :=
  if !ctx.localEnabled then .fall st
  else
    match lcGet st.lc now key with
    | none => .fall st
    | some cached =>
        let u := unwrapValue now cached
        if u.isPastStale then .fall { st with lc := lcDelete st.lc key }
        else if u.isStale && cfg.hasFetch then
          .ret (.ok (some u.data)) ((st.start key false).emit (.hitLocal key))
        else
          if cfg.isSliding then
            match resetTTL cfg now key (some u.data) st.r with
            | .error e => .ret (.error e) st
            | .ok r1 => .ret (.ok (some u.data)) (({ st with r := r1 }).emit (.hitLocal key))
          else .ret (.ok (some u.data)) (st.emit (.hitLocal key))

/-- Embedding of the primary closure server-mode `get` passes to
`circuitBreaker.execute`: read the store; a past-stale value is treated as
a miss; a stale value with a configured fetch is returned immediately with
a direct background refresh started; a fresh value populates the local
cache (when the payload is truthy) with the raw stored value and resets a
sliding TTL; a miss invokes the fetch, through the deduplicator unless
deduplication is disabled. Any error thrown inside — store read errors,
fetch errors, or store errors from the embedded write-back — escapes to
the breaker. -/
def primaryRead (ctx : Ctx) (cfg : DefCfg) (now : Nat) (ikey key : String)
    (fetchResult : Except Unit (Option JVal)) (dd : DedupState) (st : OpState) :
    Except Err (Option JVal) × OpState :=
  match st.r.rget now key with
  | .error e => (.error e, st)
  | .ok none =>
      let st1 := st.emit (.missEvt key)
      if cfg.hasFetch then
        if cfg.dedupe then dedupFetch ctx cfg now ikey key fetchResult dd st1
        else fetchAndCache ctx cfg now ikey fetchResult false st1
      else (.ok none, st1)
  | .ok (some (.str deserial)) =>
      let u := unwrapValue now deserial
      if u.isPastStale then
        let st1 := st.emit (.missEvt key)
        if cfg.hasFetch then
          if cfg.dedupe then dedupFetch ctx cfg now ikey key fetchResult dd st1
          else fetchAndCache ctx cfg now ikey fetchResult false st1
        else (.ok none, st1)
      else if u.isStale && cfg.hasFetch then
        (.ok (some u.data), (st.start key false).emit (.hitRedis key))
      else
        let lc1 :=
          if ctx.localEnabled && jvalTruthy u.data then
            lcSet st.lc now key deserial (cfg.getTTL (some u.data))
          else st.lc
        match resetTTL cfg now key (some u.data) st.r with
        | .error e => (.error e, { st with lc := lc1 })
        | .ok r1 => (.ok (some u.data), ({ st with r := r1, lc := lc1 }).emit (.hitRedis key))
  | .ok (some _) => (.error .store, st)

/-- Embedding of the fallback closure of server-mode `get`: fetch-through
when a fetch function is configured (directly, not deduplicated),
otherwise `null`. -/
def fallbackRun (ctx : Ctx) (cfg : DefCfg) (now : Nat) (ikey : String)
    (fetchResult : Except Unit (Option JVal)) (st : OpState) :
    Except Err (Option JVal) × OpState :=
  if cfg.hasFetch then fetchAndCache ctx cfg now ikey fetchResult false st
  else (.ok none, st)

/-- Result of one server-mode `get` call: the value or error the caller
observes, the operation state, and the breaker state afterwards (the
pending map is net-unchanged by a completed call, see `dedupFetch`). -/
structure GetOut where
  result : Except Err (Option JVal)
  st : OpState
  cb : CBState
deriving DecidableEq, Repr

/-- Embedding of server-mode `CacheDefinitionImpl.get`: the local phase
first; on fall-through the primary store read runs under the circuit
breaker with fetch-through as the fallback — a primary error is counted,
surfaced as an `error` event via the side-channel handler, and answered by
running the fallback, whose own outcome (error included) goes to the
caller. -/
def serverGet (ctx : Ctx) (cfg : DefCfg) (now : Nat) (ikey : String)
    (fetchResult : Except Unit (Option JVal)) (dd : DedupState) (cb : CBState)
    (st : OpState) : GetOut :=
  let key := buildCacheKey ctx.pfx cfg.name ikey
  match localPhase ctx cfg now key st with
  | .ret res st1 => ⟨res, st1, cb⟩
  | .fall st1 =>
      match CircuitBreaker.entry cb now with
      | none =>
          let fb := fallbackRun ctx cfg now ikey fetchResult st1
          ⟨fb.1, fb.2, cb⟩
      | some cb1 =>
          match primaryRead ctx cfg now ikey key fetchResult dd st1 with
          | (.ok v, st2) => ⟨.ok v, st2, CircuitBreaker.onSuccess ctx.cbCfg cb1⟩
          | (.error _, st2) =>
              let cb2 := CircuitBreaker.onFailure ctx.cbCfg now cb1
              let fb := fallbackRun ctx cfg now ikey fetchResult (st2.emit .errorEvt)
              ⟨fb.1, fb.2, cb2⟩

/-- Embedding of serverless-mode `CacheDefinitionImpl.get`: read through the
versioned cache (no local cache, no breaker, no staleness unwrapping — a
truthy stored value is returned as a hit as-is); on a miss the fetch
function is invoked directly (never deduplicated) and a non-null result is
stored via the versioned cache with the pattern bucket and tag sets
updated. -/
def serverlessGet (ctx : Ctx) (cfg : DefCfg) (now : Nat) (ikey : String)
    (fetchResult : Except Unit (Option JVal)) (st : OpState) :
    Except Err (Option JVal) × OpState :=
  let key := buildCacheKey ctx.pfx cfg.name ikey
  match versionedGet ctx.pfx now key st.r with
  | .error e => (.error e, st)
  | .ok dOpt =>
      if (match dOpt with | some d => jvalTruthy d | none => false) then
        (.ok dOpt, st.emit (.hitRedis key))
      else
        let st1 := st.emit (.missEvt key)
        if cfg.hasFetch then
          let st2 := st1.start key false
          match fetchResult with
          | .error _ => (.error .fetch, st2)
          | .ok none => (.ok none, st2)
          | .ok (some d) =>
              let ttl := cfg.getTTL (some d)
              match versionedSet ctx.pfx now key d ttl st2.r with
              | .error e => (.error e, st2)
              | .ok r1 =>
                  match trackKey ctx.pfx now key r1 with
                  | .error e => (.error e, { st2 with r := r1 })
                  | .ok r2 =>
                      match addTags ctx.pfx now key cfg.tags r2 with
                      | .error e => (.error e, { st2 with r := r2 })
                      | .ok r3 => (.ok (some d), ({ st2 with r := r3 }).emit (.setEvt key ttl))
        else (.ok none, st1)

/-- Embedding of serverless-mode `CacheDefinitionImpl.invalidate`: increment
the key's version counter and emit an `invalidate` event. -/
def serverlessInvalidate (ctx : Ctx) (cfg : DefCfg) (now : Nat) (ikey : String)
    (st : OpState) : Except Err OpState :=
  let key := buildCacheKey ctx.pfx cfg.name ikey
  match versionedInvalidate ctx.pfx now key st.r with
  | .error e => .error e
  | .ok r1 => .ok (({ st with r := r1 }).emit (.invalidateEvt key))

/-- Embedding of `CacheDefinitionImpl.getMany`: build the full keys and
issue one `MGET`, deserializing each non-null slot. -/
def getManyOp (ctx : Ctx) (cfg : DefCfg) (now : Nat) (ikeys : List String) (r : Redis) :
    Except Err (List (Option JVal)) :=
  if ikeys.isEmpty then .ok []
  else r.rmget now (ikeys.map (fun k => buildCacheKey ctx.pfx cfg.name k))

/-- The `getMany` method in the context of its class: its body references
only the store client and the serializer — the local cache, the circuit
breaker, the deduplicator and the event emitter are never consulted — so
every other component passes through unchanged and a store failure
propagates as the call's own error. -/
def getManyFull (ctx : Ctx) (cfg : DefCfg) (now : Nat) (ikeys : List String)
    (dd : DedupState) (cb : CBState) (st : OpState) :
    Except Err (List (Option JVal)) × OpState × DedupState × CBState :=
  (getManyOp ctx cfg now ikeys st.r, st, dd, cb)

/-- Embedding of `PatternMatcher.getKeysByPattern`: the candidate bucket is
named by the pattern text before its first `:*`; the bucket members are
filtered by a full anchored glob match of `prefix:pattern` only when the
pattern contains a `*`. -/
def getKeysByPattern (pfx : String) (now : Nat) (pattern : String) (r : Redis) :
    Except Err (List String) :=
  let base := String.mk (stripColonStar pattern.data)
  match r.rsmembers now (patternKeyOf pfx base) with
  | .error e => .error e
  | .ok keys =>
      if pattern.data.contains '*' then
        let fullPattern := pfx ++ ":" ++ pattern
        .ok (keys.filter (fun k => globMatch fullPattern.data k.data))
      else .ok keys

/-- Embedding of `CacheImpl.invalidatePattern`: resolve the candidate keys,
return early when there are none, delete them (version-counter increments
in serverless mode, a single `DEL` in server mode) and evict each from the
local cache; the pub/sub broadcast and the `invalidate` event are outward
observability effects not modeled here. Returns the updated store, local
cache and the list of keys removed. -/
def invalidatePatternOp (ctx : Ctx) (now : Nat) (pattern : String) (r : Redis)
    (lc : LocalStore) : Except Err (Redis × LocalStore × List String) :=
  match getKeysByPattern ctx.pfx now pattern r with
  | .error e => .error e
  | .ok keys =>
      if keys.isEmpty then .ok (r, lc, [])
      else
        let delRes :=
          match ctx.mode with
          | .serverless => versionedInvalidateMany ctx.pfx now keys r
          | .server => r.rdel keys
        match delRes with
        | .error e => .error e
        | .ok r1 =>
            .ok (r1, if ctx.localEnabled then keys.foldl lcDelete lc else lc, keys)

/-- Iterated `execute` calls with a constant outcome, for reasoning about
runs of consecutive failures or half-open successes. -/
def iterateExec (cfg : CBConfig) (now : Nat) (primaryFails : Bool) :
    Nat → CBState → CBState
  | 0, s => s
  | n + 1, s => iterateExec cfg now primaryFails n
      (CircuitBreaker.executeStep cfg s now primaryFails).1

/-! Helper lemmas about keys, splitting and glob matching. -/

lemma splitOnChar_ne_nil (c : Char) (l : List Char) : splitOnChar c l ≠ [] := by
  cases l with
  | nil => simp [splitOnChar]
  | cons x xs =>
      simp only [splitOnChar]
      split
      · simp
      · split <;> simp

lemma not_contains_head_tail {c a : Char} {xs : List Char} (h : ¬ (a :: xs).contains c) :
    ¬ a = c ∧ ¬ xs.contains c := by
  simp only [List.contains_cons, Bool.or_eq_true, beq_iff_eq] at h
  push_neg at h
  exact ⟨fun hac => h.1 hac.symm, h.2⟩

lemma splitOnChar_append_sep (c : Char) (xs ys : List Char) (h : ¬ xs.contains c) :
    splitOnChar c (xs ++ c :: ys) = xs :: splitOnChar c ys := by
  induction xs with
  | nil => simp [splitOnChar]
  | cons a xs ih =>
      obtain ⟨ha, hxs⟩ := not_contains_head_tail h
      simp [splitOnChar, ha, ih hxs]

lemma data_buildCacheKey (p n k : String) :
    (buildCacheKey p n k).data = p.data ++ ':' :: (n.data ++ ':' :: k.data) := by
  simp [buildCacheKey, String.data_append]

lemma bucketName_buildCacheKey (p n k : String)
    (hp : ¬ p.data.contains ':') (hn : ¬ n.data.contains ':') :
    bucketName (buildCacheKey p n k) = some n := by
  have hsplit : splitOnChar ':' (buildCacheKey p n k).data
      = p.data :: n.data :: splitOnChar ':' k.data := by
    rw [data_buildCacheKey, splitOnChar_append_sep ':' p.data _ hp,
      splitOnChar_append_sep ':' n.data _ hn]
  unfold bucketName
  rw [hsplit]
  have hlen : ¬ (p.data :: n.data :: splitOnChar ':' k.data).length < 3 := by
    have := splitOnChar_ne_nil ':' k.data
    cases hk : splitOnChar ':' k.data with
    | nil => exact absurd hk this
    | cons a t => simp [hk]
  rw [if_neg hlen]
  have h1 : (p.data :: n.data :: splitOnChar ':' k.data)[1]? = some n.data := by
    simp
  rw [h1]
  rfl

lemma stripColonStar_append (xs ys : List Char) (h : ¬ xs.contains ':') :
    stripColonStar (xs ++ ':' :: '*' :: ys) = xs := by
  induction xs with
  | nil => simp [stripColonStar]
  | cons a xs ih =>
      obtain ⟨ha, hxs⟩ := not_contains_head_tail h
      cases xs with
      | nil => simp [stripColonStar, ha]
      | cons b xs2 =>
          have hb := ih hxs
          simp only [List.cons_append] at hb ⊢
          rw [stripColonStar, if_neg (by simp [ha]), hb]

lemma globMatch_nil_star (s : List Char) : globStar (globMatch []) s = true := by
  induction s with
  | nil => simp [globStar, globMatch]
  | cons x t ih => simp [globStar, ih]

lemma globMatch_star_all (s : List Char) : globMatch ['*'] s = true := by
  have h : globMatch ['*'] s = globStar (globMatch []) s := by
    rw [globMatch.eq_def]
    simp
  rw [h]
  exact globMatch_nil_star s

lemma globMatch_lit_leading (xs : List Char) (h : ¬ xs.contains '*') (ps s : List Char) :
    globMatch (xs ++ ps) (xs ++ s) = globMatch ps s := by
  induction xs with
  | nil => simp
  | cons a xs ih =>
      obtain ⟨ha, hxs⟩ := not_contains_head_tail h
      simp [globMatch, if_neg ha, ih hxs]

lemma globMatch_trailing_star (xs : List Char) (h : ¬ xs.contains '*') (s : List Char) :
    globMatch (xs ++ ['*']) (xs ++ s) = true := by
  rw [globMatch_lit_leading xs h]
  exact globMatch_star_all s

/-! Helper lemmas about the store model. -/

lemma find?_filter_irrelevant {α : Type} (p q : α → Bool) (l : List α)
    (h : ∀ x, p x = true → q x = true) :
    (l.filter q).find? p = l.find? p := by
  induction l with
  | nil => rfl
  | cons a l ih =>
      cases hp : p a with
      | true =>
          rw [List.filter_cons, if_pos (h a hp), List.find?_cons_of_pos _ hp,
            List.find?_cons_of_pos _ hp]
      | false =>
          rw [List.find?_cons_of_neg _ (by simp [hp])]
          by_cases hq : q a = true
          · rw [List.filter_cons, if_pos hq, List.find?_cons_of_neg _ (by simp [hp]), ih]
          · rw [List.filter_cons, if_neg hq, ih]

lemma liveEntry_put_self (s : Store) (now : Nat) (k : String) (v : RVal) (exp : Option Nat) :
    (s.put k v exp).liveEntry now k =
      match exp with
      | none => some ⟨k, v, none⟩
      | some ex => if now ≤ ex then some ⟨k, v, some ex⟩ else none := by
  unfold Store.put Store.liveEntry
  rw [List.find?_cons_of_pos _ (by simp)]
  cases exp <;> rfl

lemma liveEntry_put_other (s : Store) (now : Nat) (k k2 : String) (v : RVal)
    (exp : Option Nat) (hne : k2 ≠ k) :
    (s.put k v exp).liveEntry now k2 = s.liveEntry now k2 := by
  unfold Store.put Store.liveEntry
  rw [List.find?_cons_of_neg _ (by simp only [beq_iff_eq]; exact fun hh => hne hh.symm)]
  rw [find?_filter_irrelevant _ _ _ (fun e he => by
    simp only [beq_iff_eq] at he
    simp [he, hne])]

lemma lookupLive_put_self_noexp (s : Store) (now : Nat) (k : String) (v : RVal) :
    (s.put k v none).lookupLive now k = some v := by
  unfold Store.lookupLive
  rw [liveEntry_put_self]
  rfl

lemma lookupLive_put_self_exp (s : Store) (now : Nat) (k : String) (v : RVal) (ex : Nat) :
    (s.put k v (some ex)).lookupLive now k = if now ≤ ex then some v else none := by
  unfold Store.lookupLive
  rw [liveEntry_put_self]
  by_cases h : now ≤ ex <;> simp [h]

lemma lookupLive_put_other (s : Store) (now : Nat) (k k2 : String) (v : RVal)
    (exp : Option Nat) (hne : k2 ≠ k) :
    (s.put k v exp).lookupLive now k2 = s.lookupLive now k2 := by
  unfold Store.lookupLive
  rw [liveEntry_put_other _ _ _ _ _ _ hne]

lemma expiryOf_put_self (s : Store) (k : String) (v : RVal) (exp : Option Nat) :
    (s.put k v exp).expiryOf k = some exp := by
  unfold Store.put Store.expiryOf
  rw [List.find?_cons_of_pos _ (by simp)]
  rfl

lemma liveEntry_expireKey_other (s : Store) (now now2 : Nat) (k k2 : String)
    (ttl : Nat) (hne : k2 ≠ k) :
    (s.expireKey now k ttl).liveEntry now2 k2 = s.liveEntry now2 k2 := by
  unfold Store.expireKey
  cases h : s.liveEntry now k with
  | none => rfl
  | some e => exact liveEntry_put_other _ _ _ _ _ _ hne

lemma lookupLive_expireKey_other (s : Store) (now now2 : Nat) (k k2 : String)
    (ttl : Nat) (hne : k2 ≠ k) :
    (s.expireKey now k ttl).lookupLive now2 k2 = s.lookupLive now2 k2 := by
  unfold Store.lookupLive
  rw [liveEntry_expireKey_other _ _ _ _ _ _ hne]

lemma lookupLive_del_mem (s : Store) (now : Nat) (ks : List String) (m : String)
    (h : m ∈ ks) : (s.del ks).lookupLive now m = none := by
  unfold Store.del Store.lookupLive Store.liveEntry
  have hnone : (s.entries.filter (fun e => !(ks.contains e.key))).find?
      (fun e => e.key == m) = none := by
    rw [List.find?_eq_none]
    intro e he
    rcases List.mem_filter.mp he with ⟨_, hq⟩
    intro hp
    simp only [beq_iff_eq] at hp
    rw [hp] at hq
    simp only [List.contains, Bool.not_eq_true] at hq
    rw [(List.elem_iff).mpr h] at hq
    cases hq
  rw [hnone]
  rfl

lemma lookupLive_del_not_mem (s : Store) (now : Nat) (ks : List String) (m : String)
    (h : ¬ m ∈ ks) : (s.del ks).lookupLive now m = s.lookupLive now m := by
  unfold Store.del Store.lookupLive Store.liveEntry
  rw [find?_filter_irrelevant _ _ _ (fun e hp => by
    simp only [beq_iff_eq] at hp
    simp only [hp, List.contains, Bool.not_eq_true]
    simp [h])]

/-! Helper lemmas about client operations and `setOp`. -/

lemma rsetex_ok (r : Redis) (now : Nat) (k : String) (ttl : Nat) (v : JVal)
    (hw : r.writeFails = false) :
    r.rsetex now k ttl v = .ok { r with store := r.store.setex now k ttl v } := by
  unfold Redis.rsetex
  rw [hw]
  rfl

lemma rset_ok (r : Redis) (k : String) (v : JVal) (hw : r.writeFails = false) :
    r.rset k v = .ok { r with store := r.store.setPlain k v } := by
  unfold Redis.rset
  rw [hw]
  rfl

lemma rsadd_fresh_ok (r : Redis) (now : Nat) (k m : String)
    (hw : r.writeFails = false) (hk : r.store.liveEntry now k = none) :
    r.rsadd now k m = .ok { r with store := r.store.put k (.sset [m]) none } := by
  unfold Redis.rsadd Store.sadd
  rw [hw, hk]
  rfl

lemma trackKey_ok (pfx : String) (now : Nat) (key bn : String) (r : Redis)
    (hw : r.writeFails = false) (hb : bucketName key = some bn)
    (hbk : r.store.liveEntry now (patternKeyOf pfx bn) = none) :
    trackKey pfx now key r
      = .ok { r with store := r.store.put (patternKeyOf pfx bn) (.sset [key]) none } := by
  unfold trackKey
  rw [hb]
  exact rsadd_fresh_ok r now _ key hw hbk

lemma setIndexing_ok (ctx : Ctx) (cfg : DefCfg) (now : Nat) (key bn : String) (r1 : Redis)
    (hw : r1.writeFails = false)
    (hb : bucketName key = some bn)
    (hbk : r1.store.liveEntry now (patternKeyOf ctx.pfx bn) = none)
    (htags : cfg.tags = []) :
    setIndexing ctx cfg now key r1
      = .ok { r1 with store := r1.store.put (patternKeyOf ctx.pfx bn) (.sset [key]) none } := by
  unfold setIndexing
  rw [trackKey_ok ctx.pfx now key bn r1 hw hb hbk, htags]
  rfl

lemma setStoreWrite_server_ttl (ctx : Ctx) (now : Nat) (key : String) (v : JVal)
    (sttl : Option Nat) (r : Redis) (lc : LocalStore)
    (hmode : ctx.mode = .server) (hw : r.writeFails = false)
    (hT : optTruthy sttl = true) :
    setStoreWrite ctx now key v sttl r lc
      = .ok ({ r with store := r.store.setex now key (sttl.getD 0) v },
          if ctx.localEnabled then lcSet lc now key v sttl else lc) := by
  unfold setStoreWrite
  rw [hmode]
  rw [if_pos hT, rsetex_ok _ _ _ _ _ hw]
  rfl

lemma setStoreWrite_server_nottl (ctx : Ctx) (now : Nat) (key : String) (v : JVal)
    (sttl : Option Nat) (r : Redis) (lc : LocalStore)
    (hmode : ctx.mode = .server) (hw : r.writeFails = false)
    (hT : optTruthy sttl = false) :
    setStoreWrite ctx now key v sttl r lc
      = .ok ({ r with store := r.store.setPlain key v },
          if ctx.localEnabled then lcSet lc now key v sttl else lc) := by
  unfold setStoreWrite
  rw [hmode]
  rw [if_neg (by simp [hT]), rset_ok _ _ _ hw]
  rfl

lemma liveEntry_setex_other (s : Store) (now now2 : Nat) (k k2 : String) (ttl : Nat)
    (v : JVal) (hne : k2 ≠ k) :
    (s.setex now k ttl v).liveEntry now2 k2 = s.liveEntry now2 k2 := by
  unfold Store.setex
  exact liveEntry_put_other _ _ _ _ _ _ hne

lemma liveEntry_setPlain_other (s : Store) (now2 : Nat) (k k2 : String)
    (v : JVal) (hne : k2 ≠ k) :
    (s.setPlain k v).liveEntry now2 k2 = s.liveEntry now2 k2 := by
  unfold Store.setPlain
  exact liveEntry_put_other _ _ _ _ _ _ hne

lemma setOp_server_ok (ctx : Ctx) (cfg : DefCfg) (now : Nat) (ikey : String)
    (data : JVal) (st : OpState) (bn : String)
    (hmode : ctx.mode = .server)
    (hw : st.r.writeFails = false)
    (hb : bucketName (buildCacheKey ctx.pfx cfg.name ikey) = some bn)
    (hne : patternKeyOf ctx.pfx bn ≠ buildCacheKey ctx.pfx cfg.name ikey)
    (hbk : st.r.store.liveEntry now (patternKeyOf ctx.pfx bn) = none)
    (htags : cfg.tags = []) :
    ∃ r3 lc1, setOp ctx cfg now ikey data st
      = (⟨r3, lc1,
          st.events ++ [.setEvt (buildCacheKey ctx.pfx cfg.name ikey) (cfg.getTTL (some data))],
          st.starts⟩, none)
      ∧ r3.getFails = st.r.getFails ∧ r3.writeFails = st.r.writeFails := by
  unfold setOp
  dsimp only
  by_cases hT : optTruthy (setWriteValue cfg now data).2 = true
  · rw [setStoreWrite_server_ttl ctx now _ _ _ st.r st.lc hmode hw hT]
    dsimp only
    set S1 := st.r.store.setex now (buildCacheKey ctx.pfx cfg.name ikey)
      ((setWriteValue cfg now data).2.getD 0) (setWriteValue cfg now data).1 with hS1
    have hbk1 : S1.liveEntry now (patternKeyOf ctx.pfx bn) = none := by
      rw [hS1, liveEntry_setex_other _ _ _ _ _ _ _ hne]
      exact hbk
    rw [setIndexing_ok ctx cfg now (buildCacheKey ctx.pfx cfg.name ikey) bn
      { st.r with store := S1 } hw hb hbk1 htags]
    exact ⟨_, _, rfl, rfl, rfl⟩
  · rw [setStoreWrite_server_nottl ctx now _ _ _ st.r st.lc hmode hw
      (by simpa using hT)]
    dsimp only
    set S1 := st.r.store.setPlain (buildCacheKey ctx.pfx cfg.name ikey)
      (setWriteValue cfg now data).1 with hS1
    have hbk1 : S1.liveEntry now (patternKeyOf ctx.pfx bn) = none := by
      rw [hS1, liveEntry_setPlain_other _ _ _ _ _ hne]
      exact hbk
    rw [setIndexing_ok ctx cfg now (buildCacheKey ctx.pfx cfg.name ikey) bn
      { st.r with store := S1 } hw hb hbk1 htags]
    exact ⟨_, _, rfl, rfl, rfl⟩

/-! Helper lemmas about the phases of server-mode `get`. -/

lemma localPhase_fall (ctx : Ctx) (cfg : DefCfg) (now : Nat) (key : String) (st : OpState)
    (hl : lcGet st.lc now key = none) : localPhase ctx cfg now key st = .fall st := by
  unfold localPhase
  cases hle : ctx.localEnabled with
  | false => simp
  | true => simp [hl]

lemma localPhase_pastStale (ctx : Ctx) (cfg : DefCfg) (now : Nat) (key : String)
    (st : OpState) (cached : JVal)
    (he : ctx.localEnabled = true)
    (hl : lcGet st.lc now key = some cached)
    (hps : (unwrapValue now cached).isPastStale = true) :
    localPhase ctx cfg now key st = .fall { st with lc := lcDelete st.lc key } := by
  unfold localPhase
  simp [he, hl, hps]

lemma cbEntry_closed (cb : CBState) (now : Nat) (hcb : cb.status = .closed) :
    CircuitBreaker.entry cb now = some cb := by
  unfold CircuitBreaker.entry
  simp [hcb]

lemma primaryRead_storeFail (ctx : Ctx) (cfg : DefCfg) (now : Nat) (ikey key : String)
    (fr : Except Unit (Option JVal)) (dd : DedupState) (st : OpState)
    (hg : st.r.getFails = true) :
    primaryRead ctx cfg now ikey key fr dd st = (.error .store, st) := by
  unfold primaryRead Redis.rget
  simp [hg]

lemma primaryRead_miss_join (ctx : Ctx) (cfg : DefCfg) (now : Nat) (ikey key : String)
    (fr : Except Unit (Option JVal)) (dd : DedupState) (st : OpState)
    (pres : Except Err (Option JVal))
    (hg : st.r.getFails = false)
    (hv : st.r.store.lookupLive now key = none)
    (hf : cfg.hasFetch = true)
    (hd : cfg.dedupe = true)
    (hdd : dedupLookup dd key = some pres) :
    primaryRead ctx cfg now ikey key fr dd st = (pres, st.emit (.missEvt key)) := by
  unfold primaryRead Redis.rget dedupFetch
  simp [hg, hv, hf, hd, hdd]

lemma primaryRead_pastStale_nofetch (ctx : Ctx) (cfg : DefCfg) (now : Nat)
    (ikey key : String) (fr : Except Unit (Option JVal)) (dd : DedupState) (st : OpState)
    (v : JVal)
    (hg : st.r.getFails = false)
    (hv : st.r.store.lookupLive now key = some (.str v))
    (hps : (unwrapValue now v).isPastStale = true)
    (hf : cfg.hasFetch = false) :
    primaryRead ctx cfg now ikey key fr dd st = (.ok none, st.emit (.missEvt key)) := by
  unfold primaryRead Redis.rget
  simp [hg, hv, hps, hf]

lemma primaryRead_pastStale_join (ctx : Ctx) (cfg : DefCfg) (now : Nat)
    (ikey key : String) (fr : Except Unit (Option JVal)) (dd : DedupState) (st : OpState)
    (v : JVal) (pres : Except Err (Option JVal))
    (hg : st.r.getFails = false)
    (hv : st.r.store.lookupLive now key = some (.str v))
    (hps : (unwrapValue now v).isPastStale = true)
    (hf : cfg.hasFetch = true)
    (hd : cfg.dedupe = true)
    (hdd : dedupLookup dd key = some pres) :
    primaryRead ctx cfg now ikey key fr dd st = (pres, st.emit (.missEvt key)) := by
  unfold primaryRead Redis.rget dedupFetch
  simp [hg, hv, hps, hf, hd, hdd]

lemma primaryRead_hit_fresh (ctx : Ctx) (cfg : DefCfg) (now : Nat) (ikey key : String)
    (fr : Except Unit (Option JVal)) (dd : DedupState) (st : OpState) (v : JVal)
    (hg : st.r.getFails = false)
    (hv : st.r.store.lookupLive now key = some (.str v))
    (hps : (unwrapValue now v).isPastStale = false)
    (hst : ((unwrapValue now v).isStale && cfg.hasFetch) = false)
    (hsl : cfg.isSliding = false)
    (hle : ctx.localEnabled = false) :
    primaryRead ctx cfg now ikey key fr dd st
      = (.ok (some (unwrapValue now v).data), st.emit (.hitRedis key)) := by
  unfold primaryRead Redis.rget resetTTL
  simp [hg, hv, hps, hst, hsl, hle]

lemma fallbackRun_nofetch (ctx : Ctx) (cfg : DefCfg) (now : Nat) (ikey : String)
    (fr : Except Unit (Option JVal)) (st : OpState) (hf : cfg.hasFetch = false) :
    fallbackRun ctx cfg now ikey fr st = (.ok none, st) := by
  unfold fallbackRun
  simp [hf]

/-! Claim C3: store errors on server-mode `get`. -/

/-- C3, counterexample: against a fully failing shared store (reads and
writes both rejecting), a server-mode `get` with a configured fetch throws
a store error to the caller: the primary read error is surfaced via the
`error` event and the fallback fetch-through is invoked, but the fallback's
write-back to the same failing store rejects and that rejection propagates
to the caller — contradicting "the store error is never thrown to the
caller". -/
theorem storeFailure_throws_cex :
    (serverGet ⟨"p", .server, false, {}⟩ ⟨"n", .absent, none, true, true, []⟩ 100 "k"
        (.ok (some (.base 7))) [] CBState.init
        ⟨⟨true, true, ⟨[]⟩⟩, [], [], []⟩).result = .error .store ∧
    (serverGet ⟨"p", .server, false, {}⟩ ⟨"n", .absent, none, true, true, []⟩ 100 "k"
        (.ok (some (.base 7))) [] CBState.init
        ⟨⟨true, true, ⟨[]⟩⟩, [], [], []⟩).st.events = [.errorEvt] ∧
    (serverGet ⟨"p", .server, false, {}⟩ ⟨"n", .absent, none, true, true, []⟩ 100 "k"
        (.ok (some (.base 7))) [] CBState.init
        ⟨⟨true, true, ⟨[]⟩⟩, [], [], []⟩).st.starts = [("p:n:k", false)] := by
  refine ⟨?_, ?_, ?_⟩ <;> decide

/-- C3, amended: when the store's read side fails, server-mode `get` never
re-throws the read error: it is surfaced only via the `error` event and the
call degrades to fetch-through — the configured fetch runs as the fallback
(directly, outside the deduplicator) and its value is returned to the
caller, with the write-back persisted, provided the store's write side
accepts it; with no fetch configured the call returns `null`. (A write-side
failure during the fallback's write-back still propagates to the caller,
which is what the counterexample exhibits.) -/
theorem storeFailure_degrades_amended :
    (∀ (ctx : Ctx) (cfg : DefCfg) (now : Nat) (ikey : String) (dv : JVal)
       (dd : DedupState) (cb : CBState) (st : OpState) (bn : String),
      lcGet st.lc now (buildCacheKey ctx.pfx cfg.name ikey) = none →
      cb.status = .closed →
      st.r.getFails = true →
      st.r.writeFails = false →
      ctx.mode = .server →
      cfg.hasFetch = true →
      cfg.tags = [] →
      bucketName (buildCacheKey ctx.pfx cfg.name ikey) = some bn →
      patternKeyOf ctx.pfx bn ≠ buildCacheKey ctx.pfx cfg.name ikey →
      st.r.store.liveEntry now (patternKeyOf ctx.pfx bn) = none →
      (serverGet ctx cfg now ikey (.ok (some dv)) dd cb st).result = .ok (some dv) ∧
      (serverGet ctx cfg now ikey (.ok (some dv)) dd cb st).st.events
        = st.events ++ [.errorEvt,
            .setEvt (buildCacheKey ctx.pfx cfg.name ikey) (cfg.getTTL (some dv))] ∧
      (serverGet ctx cfg now ikey (.ok (some dv)) dd cb st).st.starts
        = st.starts ++ [(buildCacheKey ctx.pfx cfg.name ikey, false)]) ∧
    (∀ (ctx : Ctx) (cfg : DefCfg) (now : Nat) (ikey : String)
       (fr : Except Unit (Option JVal)) (dd : DedupState) (cb : CBState) (st : OpState),
      lcGet st.lc now (buildCacheKey ctx.pfx cfg.name ikey) = none →
      cb.status = .closed →
      st.r.getFails = true →
      cfg.hasFetch = false →
      (serverGet ctx cfg now ikey fr dd cb st).result = .ok none ∧
      (serverGet ctx cfg now ikey fr dd cb st).st.events = st.events ++ [.errorEvt] ∧
      (serverGet ctx cfg now ikey fr dd cb st).st.starts = st.starts) := by
  constructor
  · intro ctx cfg now ikey dv dd cb st bn hl hcb hg hw hmode hf htags hb hne hbk
    unfold serverGet
    dsimp only
    rw [localPhase_fall ctx cfg now _ st hl]
    dsimp only
    rw [cbEntry_closed cb now hcb]
    dsimp only
    rw [primaryRead_storeFail ctx cfg now ikey _ _ dd st hg]
    dsimp only
    unfold fallbackRun fetchAndCache
    rw [hf]
    dsimp only
    obtain ⟨r3, lc1, heq, _, _⟩ := setOp_server_ok ctx cfg now ikey dv
      ((st.emit .errorEvt).start (buildCacheKey ctx.pfx cfg.name ikey) false) bn
      hmode hw hb hne hbk htags
    rw [heq]
    refine ⟨rfl, ?_, ?_⟩ <;> simp [OpState.emit, OpState.start]
  · intro ctx cfg now ikey fr dd cb st hl hcb hg hf
    unfold serverGet
    dsimp only
    rw [localPhase_fall ctx cfg now _ st hl]
    dsimp only
    rw [cbEntry_closed cb now hcb]
    dsimp only
    rw [primaryRead_storeFail ctx cfg now ikey _ _ dd st hg]
    dsimp only
    rw [fallbackRun_nofetch ctx cfg now ikey fr _ hf]
    exact ⟨rfl, rfl, rfl⟩

/-- C3, witness for the amended theorem at concrete inputs. -/
theorem storeFailure_degrades_witness :
    ((serverGet ⟨"p", .server, false, {}⟩ ⟨"n", .absent, none, true, true, []⟩ 100 "k"
        (.ok (some (.base 7))) [] CBState.init
        ⟨⟨true, false, ⟨[]⟩⟩, [], [], []⟩).result = .ok (some (.base 7)) ∧
      (serverGet ⟨"p", .server, false, {}⟩ ⟨"n", .absent, none, true, true, []⟩ 100 "k"
        (.ok (some (.base 7))) [] CBState.init
        ⟨⟨true, false, ⟨[]⟩⟩, [], [], []⟩).st.events = [.errorEvt, .setEvt "p:n:k" none] ∧
      (serverGet ⟨"p", .server, false, {}⟩ ⟨"n", .absent, none, true, true, []⟩ 100 "k"
        (.ok (some (.base 7))) [] CBState.init
        ⟨⟨true, false, ⟨[]⟩⟩, [], [], []⟩).st.starts = [("p:n:k", false)]) ∧
    ((serverGet ⟨"p", .server, false, {}⟩ ⟨"n", .absent, none, false, true, []⟩ 100 "k"
        (.ok none) [] CBState.init
        ⟨⟨true, false, ⟨[]⟩⟩, [], [], []⟩).result = .ok none ∧
      (serverGet ⟨"p", .server, false, {}⟩ ⟨"n", .absent, none, false, true, []⟩ 100 "k"
        (.ok none) [] CBState.init
        ⟨⟨true, false, ⟨[]⟩⟩, [], [], []⟩).st.events = [.errorEvt] ∧
      (serverGet ⟨"p", .server, false, {}⟩ ⟨"n", .absent, none, false, true, []⟩ 100 "k"
        (.ok none) [] CBState.init
        ⟨⟨true, false, ⟨[]⟩⟩, [], [], []⟩).st.starts = []) := by
  constructor
  · have h := storeFailure_degrades_amended.1 ⟨"p", .server, false, {}⟩
      ⟨"n", .absent, none, true, true, []⟩ 100 "k" (.base 7) [] CBState.init
      ⟨⟨true, false, ⟨[]⟩⟩, [], [], []⟩ "n"
      (by decide) (by decide) (by decide) (by decide) (by decide) (by decide)
      (by decide) (by decide) (by decide) (by decide)
    exact h
  · have h := storeFailure_degrades_amended.2 ⟨"p", .server, false, {}⟩
      ⟨"n", .absent, none, false, true, []⟩ 100 "k" (.ok none) [] CBState.init
      ⟨⟨true, false, ⟨[]⟩⟩, [], [], []⟩
      (by decide) (by decide) (by decide) (by decide)
    exact h

/-! Claim C10: `getMany` bypasses the breaker and the local cache. -/

/-- C10: `getMany` issues one direct `MGET` against the shared store for the
built keys: the local cache, the deduplicator and the circuit breaker pass
through untouched (in particular no event — hence no `error` event — is
emitted and the local cache is neither consulted nor populated), a store
failure propagates as the call's own exception rather than degrading to
fetch-through, and against a healthy store the result is exactly the
per-key store lookup, independent of any local-cache contents. -/
theorem getMany_direct_mget :
    (∀ (ctx : Ctx) (cfg : DefCfg) (now : Nat) (ikeys : List String)
       (dd : DedupState) (cb : CBState) (st : OpState),
      (getManyFull ctx cfg now ikeys dd cb st).2.1 = st ∧
      (getManyFull ctx cfg now ikeys dd cb st).2.2.1 = dd ∧
      (getManyFull ctx cfg now ikeys dd cb st).2.2.2 = cb) ∧
    (∀ (ctx : Ctx) (cfg : DefCfg) (now : Nat) (ikeys : List String)
       (dd : DedupState) (cb : CBState) (st : OpState),
      st.r.getFails = true → ikeys ≠ [] →
      (getManyFull ctx cfg now ikeys dd cb st).1 = .error .store) ∧
    (∀ (ctx : Ctx) (cfg : DefCfg) (now : Nat) (ikeys : List String)
       (dd : DedupState) (cb : CBState) (st : OpState),
      st.r.getFails = false →
      (getManyFull ctx cfg now ikeys dd cb st).1
        = .ok (ikeys.map (fun k =>
            match st.r.store.lookupLive now (buildCacheKey ctx.pfx cfg.name k) with
            | some (.str v) => some v
            | _ => none))) := by
  refine ⟨?_, ?_, ?_⟩
  · intro ctx cfg now ikeys dd cb st
    exact ⟨rfl, rfl, rfl⟩
  · intro ctx cfg now ikeys dd cb st hg hne
    unfold getManyFull getManyOp Redis.rmget
    simp [hg, hne]
  · intro ctx cfg now ikeys dd cb st hg
    unfold getManyFull getManyOp Redis.rmget
    by_cases he : ikeys = []
    · simp [he]
    · simp [hg, he, List.map_map]

/-- C10, witness at concrete inputs. -/
theorem getMany_direct_mget_witness :
    ((getManyFull ⟨"p", .server, true, {}⟩ ⟨"n", .absent, none, true, true, []⟩ 5 ["a"]
        [("p:n:a", .ok (some (.base 9)))] CBState.init
        ⟨⟨true, false, ⟨[]⟩⟩, [("p:n:a", .base 3, none)], [], []⟩).2.1
      = ⟨⟨true, false, ⟨[]⟩⟩, [("p:n:a", .base 3, none)], [], []⟩) ∧
    ((getManyFull ⟨"p", .server, true, {}⟩ ⟨"n", .absent, none, true, true, []⟩ 5 ["a"]
        [("p:n:a", .ok (some (.base 9)))] CBState.init
        ⟨⟨true, false, ⟨[]⟩⟩, [("p:n:a", .base 3, none)], [], []⟩).1 = .error .store) ∧
    ((getManyFull ⟨"p", .server, true, {}⟩ ⟨"n", .absent, none, true, true, []⟩ 5 ["a", "b"]
        [] CBState.init
        ⟨⟨false, false, ⟨[⟨"p:n:a", .str (.base 4), none⟩]⟩⟩, [], [], []⟩).1
      = .ok [some (.base 4), none]) := by
  refine ⟨?_, ?_, ?_⟩
  · exact (getMany_direct_mget.1 ⟨"p", .server, true, {}⟩
      ⟨"n", .absent, none, true, true, []⟩ 5 ["a"] [("p:n:a", .ok (some (.base 9)))]
      CBState.init ⟨⟨true, false, ⟨[]⟩⟩, [("p:n:a", .base 3, none)], [], []⟩).1
  · exact getMany_direct_mget.2.1 ⟨"p", .server, true, {}⟩
      ⟨"n", .absent, none, true, true, []⟩ 5 ["a"] [("p:n:a", .ok (some (.base 9)))]
      CBState.init ⟨⟨true, false, ⟨[]⟩⟩, [("p:n:a", .base 3, none)], [], []⟩
      (by decide) (by decide)
  · have h := getMany_direct_mget.2.2 ⟨"p", .server, true, {}⟩
      ⟨"n", .absent, none, true, true, []⟩ 5 ["a", "b"] [] CBState.init
      ⟨⟨false, false, ⟨[⟨"p:n:a", .str (.base 4), none⟩]⟩⟩, [], [], []⟩ (by decide)
    rw [h]
    decide

/-! Claim C1: deduplication protocol and its coverage. -/

/-- C1, counterexample: with deduplication enabled (the default) and a
pending deduplicator future already registered for the key (one fetch in
flight), a server-mode `get` that finds a stale-but-within-window value in
the local cache starts the stale-while-revalidate background refresh by
calling the fetch function directly — the recorded fetch start carries
`viaDedup = false` — so a second fetch for the same key is in flight
outside the deduplicator, contradicting the claimed per-key single-flight
bound covering the background refresh. -/
theorem dedup_single_flight_cex :
    dedupLookup [("p:n:k", .ok (some (.base 9)))] "p:n:k" = some (.ok (some (.base 9))) ∧
    (serverGet ⟨"p", .server, true, {}⟩ ⟨"n", .absent, none, true, true, []⟩ 5 "k"
        (.ok (some (.base 2))) [("p:n:k", .ok (some (.base 9)))] CBState.init
        ⟨⟨false, false, ⟨[]⟩⟩, [("p:n:k", .envelope (.base 1) (some 1) (some 100), none)],
          [], []⟩).st.starts = [("p:n:k", false)] ∧
    (serverGet ⟨"p", .server, true, {}⟩ ⟨"n", .absent, none, true, true, []⟩ 5 "k"
        (.ok (some (.base 2))) [("p:n:k", .ok (some (.base 9)))] CBState.init
        ⟨⟨false, false, ⟨[]⟩⟩, [("p:n:k", .envelope (.base 1) (some 1) (some 100), none)],
          [], []⟩).result = .ok (some (.base 1)) := by
  refine ⟨?_, ?_, ?_⟩ <;> decide

/-- C1, amended: `Deduplicator.run` returns the pending future for a key
without starting the function again, and the registration is removed at
settlement regardless of the outcome; with deduplication enabled this
single-flight bound covers the synchronous fetch a `get` starts on a store
miss (the call joins an existing pending future and starts no new fetch) —
but it does not cover the stale-while-revalidate background refresh or the
circuit-breaker fallback, which invoke the fetch function directly (see the
counterexample). -/
theorem dedup_single_flight_amended :
    (∀ (m : PendingMap) (k : String) (pid fresh : Nat),
      pendingFor m k = some pid →
      Deduplicator.runStep m k fresh = (m, pid, false)) ∧
    (∀ (m : PendingMap) (k : String) (o1 o2 : Bool),
      Deduplicator.settleStep m k o1 = Deduplicator.settleStep m k o2) ∧
    (∀ (m : PendingMap) (k : String) (o : Bool),
      pendingFor (Deduplicator.settleStep m k o) k = none) ∧
    (∀ (ctx : Ctx) (cfg : DefCfg) (now : Nat) (ikey : String)
       (fr : Except Unit (Option JVal)) (dd : DedupState) (cb : CBState) (st : OpState)
       (v : Option JVal),
      lcGet st.lc now (buildCacheKey ctx.pfx cfg.name ikey) = none →
      cb.status = .closed →
      st.r.getFails = false →
      st.r.store.lookupLive now (buildCacheKey ctx.pfx cfg.name ikey) = none →
      cfg.hasFetch = true →
      cfg.dedupe = true →
      dedupLookup dd (buildCacheKey ctx.pfx cfg.name ikey) = some (.ok v) →
      serverGet ctx cfg now ikey fr dd cb st
        = ⟨.ok v, st.emit (.missEvt (buildCacheKey ctx.pfx cfg.name ikey)),
            CircuitBreaker.onSuccess ctx.cbCfg cb⟩) := by
  refine ⟨?_, ?_, ?_, ?_⟩
  · intro m k pid fresh hp
    unfold Deduplicator.runStep
    unfold pendingFor at hp
    cases hfind : m.find? (fun e => e.1 == k) with
    | none => rw [hfind] at hp; cases hp
    | some p =>
        rw [hfind] at hp
        simp at hp
        simp [hfind, hp]
  · intro m k o1 o2
    rfl
  · intro m k o
    unfold Deduplicator.settleStep pendingFor
    rw [List.find?_eq_none.mpr]
    · rfl
    · intro x hx
      rcases List.mem_filter.mp hx with ⟨_, hq⟩
      simp only [bne_iff_ne, ne_eq] at hq
      simp [hq]
  · intro ctx cfg now ikey fr dd cb st v hl hcb hg hv hf hd hdd
    unfold serverGet
    dsimp only
    rw [localPhase_fall ctx cfg now _ st hl]
    dsimp only
    rw [cbEntry_closed cb now hcb]
    dsimp only
    rw [primaryRead_miss_join ctx cfg now ikey _ fr dd st (.ok v) hg hv hf hd hdd]

/-- C1, witness for the amended theorem at concrete inputs. -/
theorem dedup_single_flight_witness :
    Deduplicator.runStep [("k", 7)] "k" 9 = ([("k", 7)], 7, false) ∧
    Deduplicator.settleStep [("k", 7)] "k" true = Deduplicator.settleStep [("k", 7)] "k" false ∧
    pendingFor (Deduplicator.settleStep [("k", 7)] "k" false) "k" = none ∧
    serverGet ⟨"p", .server, false, {}⟩ ⟨"n", .absent, none, true, true, []⟩ 5 "k"
        (.ok none) [("p:n:k", .ok (some (.base 9)))] CBState.init
        ⟨⟨false, false, ⟨[]⟩⟩, [], [], []⟩
      = ⟨.ok (some (.base 9)),
          OpState.emit ⟨⟨false, false, ⟨[]⟩⟩, [], [], []⟩ (.missEvt "p:n:k"),
          CircuitBreaker.onSuccess {} CBState.init⟩ := by
  refine ⟨?_, ?_, ?_, ?_⟩
  · exact dedup_single_flight_amended.1 [("k", 7)] "k" 7 9 (by decide)
  · exact dedup_single_flight_amended.2.1 [("k", 7)] "k" true false
  · exact dedup_single_flight_amended.2.2.1 [("k", 7)] "k" false
  · exact dedup_single_flight_amended.2.2.2 ⟨"p", .server, false, {}⟩
      ⟨"n", .absent, none, true, true, []⟩ 5 "k" (.ok none)
      [("p:n:k", .ok (some (.base 9)))] CBState.init ⟨⟨false, false, ⟨[]⟩⟩, [], [], []⟩
      (some (.base 9)) (by decide) (by decide) (by decide) (by decide) (by decide)
      (by decide) (by decide)

/-! Helper lemmas about the versioned cache. -/

lemma liveEntry_isLive (s : Store) (now : Nat) (k : String) (en : StoreEntry)
    (hen : s.liveEntry now k = some en) :
    en.expireAt = none ∨ ∃ exp, en.expireAt = some exp ∧ now ≤ exp := by
  unfold Store.liveEntry at hen
  cases hfind : s.entries.find? (fun e => e.key == k) with
  | none => rw [hfind] at hen; cases hen
  | some e =>
      rw [hfind] at hen
      dsimp only at hen
      cases hexp : e.expireAt with
      | none => rw [hexp] at hen; cases hen; left; exact hexp
      | some exp =>
          rw [hexp] at hen
          dsimp only at hen
          by_cases hle : now ≤ exp
          · rw [if_pos hle] at hen
            cases hen
            right
            exact ⟨exp, hexp, hle⟩
          · rw [if_neg hle] at hen
            cases hen

lemma rexpire_ok (r : Redis) (now : Nat) (k : String) (ttl : Nat)
    (hw : r.writeFails = false) :
    r.rexpire now k ttl = .ok { r with store := r.store.expireKey now k ttl } := by
  unfold Redis.rexpire
  rw [hw]
  rfl

lemma rincr_live (r : Redis) (now : Nat) (k : String) (v : Nat) (en : StoreEntry)
    (hw : r.writeFails = false)
    (hen : r.store.liveEntry now k = some en) (hv : en.val = .num v) :
    r.rincr now k = .ok (v + 1, { r with store := r.store.put k (.num (v + 1)) en.expireAt }) := by
  unfold Redis.rincr Store.incr
  rw [hw]
  simp only [Bool.false_eq_true, if_false]
  rw [hen]
  dsimp only
  rw [hv]

lemma rincr_missing (r : Redis) (now : Nat) (k : String)
    (hw : r.writeFails = false) (hen : r.store.liveEntry now k = none) :
    r.rincr now k = .ok (1, { r with store := r.store.put k (.num 1) none }) := by
  unfold Redis.rincr Store.incr
  rw [hw]
  simp only [Bool.false_eq_true, if_false]
  rw [hen]

lemma expireKey_of_put_self (s : Store) (now : Nat) (k : String) (v : RVal)
    (exp : Option Nat) (ttl : Nat)
    (hlive : exp = none ∨ ∃ e2, exp = some e2 ∧ now ≤ e2) :
    ((s.put k v exp).expireKey now k ttl) = (s.put k v exp).put k v (some (now + ttl * 1000)) := by
  unfold Store.expireKey
  rw [liveEntry_put_self]
  rcases hlive with h | ⟨e2, he2, hle⟩
  · rw [h]
  · rw [he2]
    dsimp only
    rw [if_pos hle]

lemma put_put_self (s : Store) (k : String) (v v2 : RVal) (exp exp2 : Option Nat) :
    (s.put k v exp).put k v2 exp2 = s.put k v2 exp2 := by
  unfold Store.put
  simp only [Store.mk.injEq]
  rw [List.filter_cons]
  simp only [bne_self_eq_false]
  rw [if_neg (by simp)]
  rw [List.filter_filter]
  congr 1
  apply List.filter_congr
  intro e _
  cases h : e.key == k <;> simp [h, bne]

/-- Store after `VersionedCache.invalidate` on a live counter holding `v`:
the counter becomes `v + 1` with a refreshed 24-hour expiry. -/
lemma versionedInvalidate_live (pfx : String) (now : Nat) (key : String) (v : Nat)
    (en : StoreEntry) (r : Redis)
    (hw : r.writeFails = false)
    (hen : r.store.liveEntry now (versionKeyOf pfx key) = some en)
    (hv : en.val = .num v) :
    versionedInvalidate pfx now key r
      = .ok { r with store :=
          r.store.put (versionKeyOf pfx key) (.num (v + 1)) (some (now + 86400 * 1000)) } := by
  unfold versionedInvalidate
  rw [rincr_live r now _ v en hw hen hv]
  dsimp only
  rw [rexpire_ok
    { r with store := r.store.put (versionKeyOf pfx key) (.num (v + 1)) en.expireAt }
    now (versionKeyOf pfx key) 86400 hw]
  rw [expireKey_of_put_self _ _ _ _ _ _ (liveEntry_isLive _ _ _ _ hen)]
  rw [put_put_self]

/-- Store after `VersionedCache.invalidate` on a missing (or expired)
counter: the counter becomes 1 with a 24-hour expiry. -/
lemma versionedInvalidate_missing (pfx : String) (now : Nat) (key : String) (r : Redis)
    (hw : r.writeFails = false)
    (hen : r.store.liveEntry now (versionKeyOf pfx key) = none) :
    versionedInvalidate pfx now key r
      = .ok { r with store :=
          r.store.put (versionKeyOf pfx key) (.num 1) (some (now + 86400 * 1000)) } := by
  unfold versionedInvalidate
  rw [rincr_missing r now _ hw hen]
  dsimp only
  rw [rexpire_ok
    { r with store := r.store.put (versionKeyOf pfx key) (.num 1) none }
    now (versionKeyOf pfx key) 86400 hw]
  rw [expireKey_of_put_self _ _ _ _ _ _ (Or.inl rfl)]
  rw [put_put_self]

/-- `VersionedCache.get` reads the counter (a missing counter is version 0)
and then the corresponding versioned physical key. -/
lemma versionedGet_counter (pfx : String) (now : Nat) (key : String) (r : Redis)
    (v : Nat) (hg : r.getFails = false)
    (hc : r.store.lookupLive now (versionKeyOf pfx key) = some (.num v)) :
    versionedGet pfx now key r
      = (match r.store.lookupLive now (versionedKeyOf pfx key v) with
         | none => .ok none
         | some (.str p) => .ok (some p)
         | some _ => .error .store) := by
  unfold versionedGet Redis.rget
  rw [hg]
  simp only [Bool.false_eq_true, if_false]
  rw [hc]
  dsimp only
  cases r.store.lookupLive now (versionedKeyOf pfx key v) with
  | none => rfl
  | some rv => cases rv <;> rfl

lemma versionedGet_missing_counter (pfx : String) (now : Nat) (key : String) (r : Redis)
    (hg : r.getFails = false)
    (hc : r.store.lookupLive now (versionKeyOf pfx key) = none) :
    versionedGet pfx now key r
      = (match r.store.lookupLive now (versionedKeyOf pfx key 0) with
         | none => .ok none
         | some (.str p) => .ok (some p)
         | some _ => .error .store) := by
  unfold versionedGet Redis.rget
  rw [hg]
  simp only [Bool.false_eq_true, if_false]
  rw [hc]
  dsimp only
  cases r.store.lookupLive now (versionedKeyOf pfx key 0) with
  | none => rfl
  | some rv => cases rv <;> rfl

lemma expiryOf_put_other (s : Store) (k k2 : String) (v : RVal) (exp : Option Nat)
    (hne : k2 ≠ k) : (s.put k v exp).expiryOf k2 = s.expiryOf k2 := by
  unfold Store.put Store.expiryOf
  rw [List.find?_cons_of_neg _ (by simp only [beq_iff_eq]; exact fun hh => hne hh.symm)]
  rw [find?_filter_irrelevant _ _ _ (fun e he => by
    simp only [beq_iff_eq] at he
    simp [he, hne])]

lemma setWriteValue_swr (cfg : DefCfg) (now : Nat) (data : JVal) (w t : Nat)
    (hswr : cfg.swr = some w) (hwne : w ≠ 0)
    (httl : cfg.getTTL (some data) = some t) (htne : t ≠ 0) :
    setWriteValue cfg now data
      = (.envelope data (some (now + t * 1000)) (some (now + (t + w) * 1000)),
         some (t + w)) := by
  unfold setWriteValue
  rw [httl, hswr]
  simp [optTruthy, hwne, htne]

lemma setWriteValue_noswr (cfg : DefCfg) (now : Nat) (data : JVal)
    (hswr : cfg.swr = none) :
    setWriteValue cfg now data = (data, cfg.getTTL (some data)) := by
  unfold setWriteValue
  rw [hswr]
  simp [optTruthy]

/-- Store after `VersionedCache.set` on a missing counter and a truthy TTL:
the counter is initialized to 0 with a 24-hour expiry and the payload is
written under version 0 with the given TTL. -/
lemma versionedSet_fresh (pfx : String) (now : Nat) (key : String) (v : JVal) (t : Nat)
    (r : Redis) (hg : r.getFails = false) (hw : r.writeFails = false)
    (hc : r.store.lookupLive now (versionKeyOf pfx key) = none)
    (ht : t ≠ 0) :
    versionedSet pfx now key v (some t) r
      = .ok { r with store :=
          (r.store.put (versionKeyOf pfx key) (.num 0)
            (some (now + 86400 * 1000))).setex now (versionedKeyOf pfx key 0) t v } := by
  unfold versionedSet Redis.rget Redis.rsetCounter
  rw [hg]
  simp only [Bool.false_eq_true, if_false]
  rw [hc]
  dsimp only
  rw [hw]
  simp only [Bool.false_eq_true, if_false]
  rw [rexpire_ok ⟨false, false, r.store.put (versionKeyOf pfx key) (.num 0) none⟩
    now (versionKeyOf pfx key) 86400 rfl]
  rw [expireKey_of_put_self _ _ _ _ _ _ (Or.inl rfl), put_put_self]
  dsimp only
  rw [show optTruthy (some t) = true by simp [optTruthy, ht]]
  simp only [if_true, Option.getD_some]
  rw [rsetex_ok ⟨false, false, r.store.put (versionKeyOf pfx key) (.num 0) (some (now + 86400 * 1000))⟩ now (versionedKeyOf pfx key 0) t v rfl]

lemma lookupLive_setex_other (s : Store) (now now2 : Nat) (k k2 : String) (ttl : Nat)
    (v : JVal) (hne : k2 ≠ k) :
    (s.setex now k ttl v).lookupLive now2 k2 = s.lookupLive now2 k2 := by
  unfold Store.setex
  exact lookupLive_put_other _ _ _ _ _ _ hne

lemma lookupLive_setex_self (s : Store) (now now2 : Nat) (k : String) (ttl : Nat)
    (v : JVal) :
    (s.setex now k ttl v).lookupLive now2 k
      = if now2 ≤ now + ttl * 1000 then some (.str v) else none := by
  unfold Store.setex
  exact lookupLive_put_self_exp _ _ _ _ _

lemma expiryOf_setex_self (s : Store) (now : Nat) (k : String) (ttl : Nat) (v : JVal) :
    (s.setex now k ttl v).expiryOf k = some (some (now + ttl * 1000)) := by
  unfold Store.setex
  exact expiryOf_put_self _ _ _ _

/-! Claim C7: serverless invalidation via version counters. -/

/-- C7: in serverless mode, `invalidate` increments the key's version
counter (with a refreshed 24-hour counter expiry); a subsequent `get`
within the counter's lifetime reads the incremented version's physical key
and reports a miss, even though the previous version's physical payload is
still stored untouched; a counter that is missing is incremented to 1 by
`invalidate` and is read as version 0 by `get`. -/
lemma serverlessGet_missAfter (ctx : Ctx) (cfg : DefCfg) (now2 : Nat) (ikey : String)
    (fr : Except Unit (Option JVal)) (st1 : OpState) (v1 : Nat)
    (hg : st1.r.getFails = false)
    (hc : st1.r.store.lookupLive now2
      (versionKeyOf ctx.pfx (buildCacheKey ctx.pfx cfg.name ikey)) = some (.num v1))
    (hnone : st1.r.store.lookupLive now2
      (versionedKeyOf ctx.pfx (buildCacheKey ctx.pfx cfg.name ikey) v1) = none)
    (hnf : cfg.hasFetch = false) :
    serverlessGet ctx cfg now2 ikey fr st1
      = (.ok none, st1.emit (.missEvt (buildCacheKey ctx.pfx cfg.name ikey))) := by
  unfold serverlessGet
  dsimp only
  rw [versionedGet_counter _ now2 _ _ v1 hg hc, hnone]
  dsimp only
  rw [hnf]
  rfl

theorem serverless_version_invalidation :
    (∀ (ctx : Ctx) (cfg : DefCfg) (now now2 : Nat) (ikey : String) (st : OpState)
       (v : Nat) (en : StoreEntry) (fr : Except Unit (Option JVal)),
      st.r.writeFails = false →
      st.r.getFails = false →
      st.r.store.liveEntry now (versionKeyOf ctx.pfx (buildCacheKey ctx.pfx cfg.name ikey))
        = some en →
      en.val = .num v →
      now2 ≤ now + 86400 * 1000 →
      st.r.store.lookupLive now2
        (versionedKeyOf ctx.pfx (buildCacheKey ctx.pfx cfg.name ikey) (v + 1)) = none →
      versionedKeyOf ctx.pfx (buildCacheKey ctx.pfx cfg.name ikey) (v + 1)
        ≠ versionKeyOf ctx.pfx (buildCacheKey ctx.pfx cfg.name ikey) →
      versionedKeyOf ctx.pfx (buildCacheKey ctx.pfx cfg.name ikey) v
        ≠ versionKeyOf ctx.pfx (buildCacheKey ctx.pfx cfg.name ikey) →
      cfg.hasFetch = false →
      ∃ st1, serverlessInvalidate ctx cfg now ikey st = .ok st1 ∧
        st1.r.store.lookupLive now2
          (versionKeyOf ctx.pfx (buildCacheKey ctx.pfx cfg.name ikey))
          = some (.num (v + 1)) ∧
        st1.r.store.lookupLive now2
          (versionedKeyOf ctx.pfx (buildCacheKey ctx.pfx cfg.name ikey) v)
          = st.r.store.lookupLive now2
              (versionedKeyOf ctx.pfx (buildCacheKey ctx.pfx cfg.name ikey) v) ∧
        (serverlessGet ctx cfg now2 ikey fr st1).1 = .ok none ∧
        (serverlessGet ctx cfg now2 ikey fr st1).2.events
          = st1.events ++ [.missEvt (buildCacheKey ctx.pfx cfg.name ikey)]) ∧
    (∀ (pfx key : String) (now : Nat) (r : Redis),
      r.writeFails = false →
      r.store.liveEntry now (versionKeyOf pfx key) = none →
      versionedInvalidate pfx now key r
        = .ok { r with store :=
            r.store.put (versionKeyOf pfx key) (.num 1) (some (now + 86400 * 1000)) }) ∧
    (∀ (pfx key : String) (now : Nat) (r : Redis) (p : JVal),
      r.getFails = false →
      r.store.lookupLive now (versionKeyOf pfx key) = none →
      r.store.lookupLive now (versionedKeyOf pfx key 0) = some (.str p) →
      versionedGet pfx now key r = .ok (some p)) := by
  refine ⟨?_, ?_, ?_⟩
  · intro ctx cfg now now2 ikey st v en fr hw hg hen hv hn2 hnone hne hneOld hnf
    set K : String := buildCacheKey ctx.pfx cfg.name ikey with hK
    set S1 : Store := st.r.store.put (versionKeyOf ctx.pfx K) (RVal.num (v + 1)) (some (now + 86400 * 1000)) with hS1
    have hmiss := serverlessGet_missAfter ctx cfg now2 ikey fr
      (OpState.emit ⟨⟨st.r.getFails, st.r.writeFails, S1⟩, st.lc, st.events, st.starts⟩ (CacheEvent.invalidateEvt K)) (v + 1) hg
      (by dsimp only [OpState.emit]; rw [hS1, ← hK, lookupLive_put_self_exp, if_pos hn2])
      (by dsimp only [OpState.emit]; rw [hS1, ← hK, lookupLive_put_other _ _ _ _ _ _ hne]; exact hnone)
      hnf
    unfold serverlessInvalidate
    dsimp only
    rw [versionedInvalidate_live ctx.pfx now _ v en st.r hw hen hv]
    dsimp only
    refine ⟨_, rfl, ?_, ?_, ?_, ?_⟩
    · dsimp only [OpState.emit]
      rw [lookupLive_put_self_exp, if_pos hn2]
    · dsimp only [OpState.emit]
      rw [lookupLive_put_other _ _ _ _ _ _ hneOld]
    · rw [hS1] at hmiss
      rw [hmiss]
    · rw [hS1] at hmiss
      rw [hmiss]
      rfl
  · intro pfx key now r hw hen
    exact versionedInvalidate_missing pfx now key r hw hen
  · intro pfx key now r p hg hc hp
    rw [versionedGet_missing_counter pfx now key r hg hc, hp]

/-- C7, witness at concrete inputs: a counter at version 2 with a payload
stored under `v2`; after `invalidate` the counter reads 3 and `get` misses;
a missing counter is incremented to 1 and read as version 0. -/
theorem serverless_version_invalidation_witness :
    (∃ st1, serverlessInvalidate ⟨"p", .serverless, false, {}⟩
        ⟨"n", .absent, none, false, true, []⟩ 50 "k"
        ⟨⟨false, false, ⟨[⟨"p:version:p:n:k", .num 2, none⟩,
          ⟨"p:p:n:k:v2", .str (.base 9), none⟩]⟩⟩, [], [], []⟩ = .ok st1 ∧
      st1.r.store.lookupLive 60 (versionKeyOf "p" (buildCacheKey "p" "n" "k"))
        = some (.num 3) ∧
      (serverlessGet ⟨"p", .serverless, false, {}⟩ ⟨"n", .absent, none, false, true, []⟩
        60 "k" (.ok none) st1).1 = .ok none) ∧
    (versionedInvalidate "p" 7 "q" ⟨false, false, ⟨[]⟩⟩).map
      (fun r1 => r1.store.lookupLive 7 (versionKeyOf "p" "q")) = .ok (some (.num 1)) ∧
    versionedGet "p" 9 "q"
      ⟨false, false, ⟨[⟨versionedKeyOf "p" "q" 0, .str (.base 5), none⟩]⟩⟩
      = .ok (some (.base 5)) := by
  refine ⟨?_, ?_, ?_⟩
  · obtain ⟨st1, h1, h2, h3, h4, h5⟩ := serverless_version_invalidation.1
      ⟨"p", .serverless, false, {}⟩ ⟨"n", .absent, none, false, true, []⟩ 50 60 "k"
      ⟨⟨false, false, ⟨[⟨"p:version:p:n:k", .num 2, none⟩,
        ⟨"p:p:n:k:v2", .str (.base 9), none⟩]⟩⟩, [], [], []⟩ 2
      ⟨"p:version:p:n:k", .num 2, none⟩ (.ok none)
      (by decide) (by decide) (by decide) (by decide) (by decide) (by decide)
      (by decide) (by decide) (by decide)
    exact ⟨st1, h1, h2, h4⟩
  · rw [serverless_version_invalidation.2.1 "p" "q" 7 ⟨false, false, ⟨[]⟩⟩
      (by decide) (by decide)]
    decide
  · exact serverless_version_invalidation.2.2 "p" "q" 9
      ⟨false, false, ⟨[⟨versionedKeyOf "p" "q" 0, .str (.base 5), none⟩]⟩⟩ (.base 5)
      (by decide) (by decide) (by decide)

/-! Claim C4: the stale bound on `get`. -/

/-- C4, counterexample: in serverless mode `get` performs no staleness
unwrapping — a stored record carrying `staleUntil = 5` that is still
physically present is returned as a hit at time 10 > 5, contradicting "the
same bound holds for serverless-mode get". -/
theorem staleBound_serverless_cex :
    (serverlessGet ⟨"p", .serverless, false, {}⟩ ⟨"n", .absent, none, false, true, []⟩
        10 "k" (.ok none)
        ⟨⟨false, false, ⟨[⟨"p:p:n:k:v0",
          .str (.envelope (.base 3) (some 1) (some 5)), none⟩]⟩⟩, [], [], []⟩).1
      = .ok (some (.envelope (.base 3) (some 1) (some 5))) ∧
    (serverlessGet ⟨"p", .serverless, false, {}⟩ ⟨"n", .absent, none, false, true, []⟩
        10 "k" (.ok none)
        ⟨⟨false, false, ⟨[⟨"p:p:n:k:v0",
          .str (.envelope (.base 3) (some 1) (some 5)), none⟩]⟩⟩, [], [], []⟩).2.events
      = [.hitRedis "p:n:k"] ∧
    (10 : Nat) > 5 := by
  refine ⟨?_, ?_, ?_⟩ <;> decide

/-- C4, amended: for every stored record carrying a truthy (nonzero)
`staleUntil`, a server-mode `get` at a time strictly past that bound never
serves the record: a local-cache hit is evicted and falls through as a
miss, and a store hit is answered by the miss path (no hit event; `null`
without a fetch, the deduplicated fetch result with one). In serverless
mode `get` does no staleness unwrapping; the bound is enforced only by the
physical TTL, which for records written by serverless `set` with
stale-while-revalidate equals the record's `staleUntil` instant exactly, so
a `get` strictly past the bound (within the counter's lifetime) reports a
miss. -/
theorem staleBound_amended :
    (∀ (ctx : Ctx) (cfg : DefCfg) (now : Nat) (key : String) (st : OpState)
       (d : JVal) (e : Option Nat) (su : Nat),
      ctx.localEnabled = true →
      lcGet st.lc now key = some (.envelope d e (some su)) →
      su ≠ 0 → now > su →
      localPhase ctx cfg now key st = .fall { st with lc := lcDelete st.lc key }) ∧
    (∀ (ctx : Ctx) (cfg : DefCfg) (now : Nat) (ikey key : String)
       (fr : Except Unit (Option JVal)) (dd : DedupState) (st : OpState)
       (d : JVal) (e : Option Nat) (su : Nat),
      st.r.getFails = false →
      st.r.store.lookupLive now key = some (.str (.envelope d e (some su))) →
      su ≠ 0 → now > su →
      cfg.hasFetch = false →
      primaryRead ctx cfg now ikey key fr dd st = (.ok none, st.emit (.missEvt key))) ∧
    (∀ (ctx : Ctx) (cfg : DefCfg) (now : Nat) (ikey key : String)
       (fr : Except Unit (Option JVal)) (dd : DedupState) (st : OpState)
       (d : JVal) (e : Option Nat) (su : Nat) (pres : Except Err (Option JVal)),
      st.r.getFails = false →
      st.r.store.lookupLive now key = some (.str (.envelope d e (some su))) →
      su ≠ 0 → now > su →
      cfg.hasFetch = true → cfg.dedupe = true →
      dedupLookup dd key = some pres →
      primaryRead ctx cfg now ikey key fr dd st = (pres, st.emit (.missEvt key))) ∧
    (∀ (ctx : Ctx) (cfg : DefCfg) (now now2 : Nat) (ikey : String) (data : JVal)
       (st : OpState) (bn : String) (w t : Nat) (fr : Except Unit (Option JVal)),
      ctx.mode = .serverless →
      st.r.getFails = false →
      st.r.writeFails = false →
      cfg.swr = some w → w ≠ 0 →
      cfg.getTTL (some data) = some t → t ≠ 0 →
      bucketName (buildCacheKey ctx.pfx cfg.name ikey) = some bn →
      cfg.tags = [] →
      cfg.hasFetch = false →
      st.r.store.lookupLive now
        (versionKeyOf ctx.pfx (buildCacheKey ctx.pfx cfg.name ikey)) = none →
      st.r.store.liveEntry now (patternKeyOf ctx.pfx bn) = none →
      patternKeyOf ctx.pfx bn
        ≠ versionKeyOf ctx.pfx (buildCacheKey ctx.pfx cfg.name ikey) →
      patternKeyOf ctx.pfx bn
        ≠ versionedKeyOf ctx.pfx (buildCacheKey ctx.pfx cfg.name ikey) 0 →
      versionedKeyOf ctx.pfx (buildCacheKey ctx.pfx cfg.name ikey) 0
        ≠ versionKeyOf ctx.pfx (buildCacheKey ctx.pfx cfg.name ikey) →
      now2 ≤ now + 86400 * 1000 →
      now + (t + w) * 1000 < now2 →
      ∃ st1, setOp ctx cfg now ikey data st = (st1, none) ∧
        st1.r.store.lookupLive now
          (versionedKeyOf ctx.pfx (buildCacheKey ctx.pfx cfg.name ikey) 0)
          = some (.str (.envelope data (some (now + t * 1000))
              (some (now + (t + w) * 1000)))) ∧
        st1.r.store.expiryOf
          (versionedKeyOf ctx.pfx (buildCacheKey ctx.pfx cfg.name ikey) 0)
          = some (some (now + (t + w) * 1000)) ∧
        serverlessGet ctx cfg now2 ikey fr st1
          = (.ok none, st1.emit (.missEvt (buildCacheKey ctx.pfx cfg.name ikey)))) := by
  refine ⟨?_, ?_, ?_, ?_⟩
  · intro ctx cfg now key st d e su he hl hsu hnow
    exact localPhase_pastStale ctx cfg now key st _ he hl
      (by simp [unwrapValue, optTruthy, hsu, hnow])
  · intro ctx cfg now ikey key fr dd st d e su hg hv hsu hnow hnf
    exact primaryRead_pastStale_nofetch ctx cfg now ikey key fr dd st _ hg hv
      (by simp [unwrapValue, optTruthy, hsu, hnow]) hnf
  · intro ctx cfg now ikey key fr dd st d e su pres hg hv hsu hnow hf hd hdd
    exact primaryRead_pastStale_join ctx cfg now ikey key fr dd st _ pres hg hv
      (by simp [unwrapValue, optTruthy, hsu, hnow]) hf hd hdd
  · intro ctx cfg now now2 ikey data st bn w t fr hmode hg hw hswr hwne httl htne hb
      htags hnf hc hbk hne1 hne2 hne3 hn86 hlate
    set K : String := buildCacheKey ctx.pfx cfg.name ikey with hK
    set VK : String := versionKeyOf ctx.pfx K with hVK
    set PK : String := versionedKeyOf ctx.pfx K 0 with hPK
    set BK : String := patternKeyOf ctx.pfx bn with hBK
    set ENV : JVal := JVal.envelope data (some (now + t * 1000)) (some (now + (t + w) * 1000)) with hENV
    set S2 : Store := (st.r.store.put VK (RVal.num 0) (some (now + 86400 * 1000))).setex now PK (t + w) ENV with hS2
    have hmain : setStoreWrite ctx now K ENV (some (t + w)) st.r st.lc = .ok (⟨st.r.getFails, st.r.writeFails, S2⟩, st.lc) := by
      unfold setStoreWrite
      rw [hmode]
      dsimp only
      rw [versionedSet_fresh ctx.pfx now K ENV (t + w) st.r hg hw hc (by omega)]
      rfl
    have hbk1 : (⟨st.r.getFails, st.r.writeFails, S2⟩ : Redis).store.liveEntry now BK = none := by
      dsimp only
      rw [hS2, liveEntry_setex_other _ _ _ _ _ _ _ hne2, liveEntry_put_other _ _ _ _ _ _ hne1]
      exact hbk
    unfold setOp
    dsimp only
    rw [setWriteValue_swr cfg now data w t hswr hwne httl htne]
    dsimp only
    rw [← hK, ← hENV, hmain]
    dsimp only
    rw [setIndexing_ok ctx cfg now K bn ⟨st.r.getFails, st.r.writeFails, S2⟩ hw hb hbk1 htags]
    dsimp only
    refine ⟨_, rfl, ?_, ?_, ?_⟩
    · dsimp only [OpState.emit]
      rw [lookupLive_put_other _ _ _ _ _ _ (Ne.symm hne2), hS2,
        lookupLive_setex_self, if_pos (by omega)]
    · dsimp only [OpState.emit]
      rw [expiryOf_put_other _ _ _ _ _ (Ne.symm hne2), hS2, expiryOf_setex_self]
    · have hcnt : (OpState.emit ⟨⟨st.r.getFails, st.r.writeFails, S2.put BK (RVal.sset [K]) none⟩, st.lc, st.events, st.starts⟩ (CacheEvent.setEvt K (cfg.getTTL (some data)))).r.store.lookupLive now2 VK = some (RVal.num 0) := by
        dsimp only [OpState.emit]
        rw [lookupLive_put_other _ _ _ _ _ _ (Ne.symm hne1), hS2,
          lookupLive_setex_other _ _ _ _ _ _ _ (Ne.symm hne3),
          lookupLive_put_self_exp, if_pos hn86]
      have hpay : (OpState.emit ⟨⟨st.r.getFails, st.r.writeFails, S2.put BK (RVal.sset [K]) none⟩, st.lc, st.events, st.starts⟩ (CacheEvent.setEvt K (cfg.getTTL (some data)))).r.store.lookupLive now2 PK = none := by
        dsimp only [OpState.emit]
        rw [lookupLive_put_other _ _ _ _ _ _ (Ne.symm hne2), hS2,
          lookupLive_setex_self, if_neg (by omega)]
      exact serverlessGet_missAfter ctx cfg now2 ikey fr _ 0 hg hcnt hpay hnf

/-- C4, witness for the amended theorem at concrete inputs. -/
theorem staleBound_witness :
    (localPhase ⟨"p", .server, true, {}⟩ ⟨"n", .absent, none, true, true, []⟩ 10 "p:n:k"
        ⟨⟨false, false, ⟨[]⟩⟩, [("p:n:k", .envelope (.base 3) (some 1) (some 5), none)],
          [], []⟩
      = .fall ⟨⟨false, false, ⟨[]⟩⟩, [], [], []⟩) ∧
    (primaryRead ⟨"p", .server, true, {}⟩ ⟨"n", .absent, none, false, true, []⟩ 10 "k"
        "p:n:k" (.ok none) []
        ⟨⟨false, false, ⟨[⟨"p:n:k", .str (.envelope (.base 3) (some 1) (some 5)), none⟩]⟩⟩,
          [], [], []⟩
      = (.ok none,
          OpState.emit ⟨⟨false, false,
            ⟨[⟨"p:n:k", .str (.envelope (.base 3) (some 1) (some 5)), none⟩]⟩⟩, [], [], []⟩
            (.missEvt "p:n:k"))) ∧
    (primaryRead ⟨"p", .server, true, {}⟩ ⟨"n", .absent, none, true, true, []⟩ 10 "k"
        "p:n:k" (.ok none) [("p:n:k", .ok (some (.base 8)))]
        ⟨⟨false, false, ⟨[⟨"p:n:k", .str (.envelope (.base 3) (some 1) (some 5)), none⟩]⟩⟩,
          [], [], []⟩
      = (.ok (some (.base 8)),
          OpState.emit ⟨⟨false, false,
            ⟨[⟨"p:n:k", .str (.envelope (.base 3) (some 1) (some 5)), none⟩]⟩⟩, [], [], []⟩
            (.missEvt "p:n:k"))) ∧
    (∃ st1, setOp ⟨"p", .serverless, false, {}⟩ ⟨"n", .window 2 false, some 3, false, true, []⟩
        100 "k" (.base 7) ⟨⟨false, false, ⟨[]⟩⟩, [], [], []⟩ = (st1, none) ∧
      st1.r.store.expiryOf (versionedKeyOf "p" (buildCacheKey "p" "n" "k") 0)
        = some (some (100 + (2 + 3) * 1000)) ∧
      serverlessGet ⟨"p", .serverless, false, {}⟩ ⟨"n", .window 2 false, some 3, false, true, []⟩
        6000 "k" (.ok none) st1
        = (.ok none, st1.emit (.missEvt (buildCacheKey "p" "n" "k")))) := by
  refine ⟨?_, ?_, ?_, ?_⟩
  · rw [staleBound_amended.1 ⟨"p", .server, true, {}⟩ ⟨"n", .absent, none, true, true, []⟩
      10 "p:n:k" _ (.base 3) (some 1) 5 (by decide) (by decide) (by decide) (by decide)]
    decide
  · exact staleBound_amended.2.1 ⟨"p", .server, true, {}⟩
      ⟨"n", .absent, none, false, true, []⟩ 10 "k" "p:n:k" (.ok none) []
      ⟨⟨false, false, ⟨[⟨"p:n:k", .str (.envelope (.base 3) (some 1) (some 5)), none⟩]⟩⟩,
        [], [], []⟩ (.base 3) (some 1) 5
      (by decide) (by decide) (by decide) (by decide) (by decide)
  · exact staleBound_amended.2.2.1 ⟨"p", .server, true, {}⟩
      ⟨"n", .absent, none, true, true, []⟩ 10 "k" "p:n:k" (.ok none)
      [("p:n:k", .ok (some (.base 8)))]
      ⟨⟨false, false, ⟨[⟨"p:n:k", .str (.envelope (.base 3) (some 1) (some 5)), none⟩]⟩⟩,
        [], [], []⟩ (.base 3) (some 1) 5 (.ok (some (.base 8)))
      (by decide) (by decide) (by decide) (by decide) (by decide) (by decide) (by decide)
  · obtain ⟨st1, h1, h2, h3, h4⟩ := staleBound_amended.2.2.2 ⟨"p", .serverless, false, {}⟩
      ⟨"n", .window 2 false, some 3, false, true, []⟩ 100 6000 "k" (.base 7)
      ⟨⟨false, false, ⟨[]⟩⟩, [], [], []⟩ "n" 3 2 (.ok none)
      (by decide) (by decide) (by decide) (by decide) (by decide) (by decide) (by decide)
      (by decide) (by decide) (by decide) (by decide) (by decide) (by decide) (by decide)
      (by decide) (by decide) (by decide)
    exact ⟨st1, h1, h3, h4⟩

/-! Claim C5: the stale-while-revalidate wrap on `set`. -/

/-- C5, counterexample: with `staleWhileRevalidate = 5` configured and a TTL
that resolves to the number 0 (a `{duration: 0}` config), `set` does not
wrap the value — 0 is falsy, so the value is stored bare with no physical
expiry at all, not with `freshUntil`/`staleUntil` timestamps and a physical
TTL of `0 + 5`. -/
theorem swrWrap_cex :
    (⟨"n", .window 0 false, some 5, false, true, []⟩ : DefCfg).getTTL (some (.base 7))
      = some 0 ∧
    ((setOp ⟨"p", .server, false, {}⟩ ⟨"n", .window 0 false, some 5, false, true, []⟩
        100 "k" (.base 7) ⟨⟨false, false, ⟨[]⟩⟩, [], [], []⟩).1.r.store.lookupLive 100
        "p:n:k") = some (.str (.base 7)) ∧
    ((setOp ⟨"p", .server, false, {}⟩ ⟨"n", .window 0 false, some 5, false, true, []⟩
        100 "k" (.base 7) ⟨⟨false, false, ⟨[]⟩⟩, [], [], []⟩).1.r.store.expiryOf
        "p:n:k") = some none ∧
    (RVal.str (.base 7)
      ≠ .str (.envelope (.base 7) (some (100 + 0 * 1000)) (some (100 + (0 + 5) * 1000)))) := by
  refine ⟨?_, ?_, ?_, ?_⟩ <;> decide

/-- C5, amended: for every `set` with a truthy stale-while-revalidate window
`w` and a TTL resolving to a nonzero number `t`, the value written to the
store is wrapped with `expiresAt = now + t·1000` (freshUntil) and
`staleUntil = expiresAt + w·1000`, and the physical expiry used for the
store write is `t + w` seconds (the entry expires at `now + (t+w)·1000`). -/
theorem swrWrap_amended :
    ∀ (ctx : Ctx) (cfg : DefCfg) (now : Nat) (ikey : String) (data : JVal)
      (st : OpState) (bn : String) (w t : Nat),
      ctx.mode = .server →
      st.r.writeFails = false →
      cfg.swr = some w → w ≠ 0 →
      cfg.getTTL (some data) = some t → t ≠ 0 →
      bucketName (buildCacheKey ctx.pfx cfg.name ikey) = some bn →
      patternKeyOf ctx.pfx bn ≠ buildCacheKey ctx.pfx cfg.name ikey →
      st.r.store.liveEntry now (patternKeyOf ctx.pfx bn) = none →
      cfg.tags = [] →
      ∃ st1, setOp ctx cfg now ikey data st = (st1, none) ∧
        st1.r.store.lookupLive now (buildCacheKey ctx.pfx cfg.name ikey)
          = some (.str (.envelope data (some (now + t * 1000))
              (some (now + (t + w) * 1000)))) ∧
        st1.r.store.expiryOf (buildCacheKey ctx.pfx cfg.name ikey)
          = some (some (now + (t + w) * 1000)) := by
  intro ctx cfg now ikey data st bn w t hmode hw hswr hwne httl htne hb hne hbk htags
  set K : String := buildCacheKey ctx.pfx cfg.name ikey with hK
  set BK : String := patternKeyOf ctx.pfx bn with hBK
  set ENV : JVal := JVal.envelope data (some (now + t * 1000)) (some (now + (t + w) * 1000)) with hENV
  set S1 : Store := st.r.store.setex now K ((some (t + w)).getD 0) ENV with hS1
  have hbk1 : (⟨st.r.getFails, st.r.writeFails, S1⟩ : Redis).store.liveEntry now BK = none := by
    dsimp only
    rw [hS1, liveEntry_setex_other _ _ _ _ _ _ _ hne]
    exact hbk
  unfold setOp
  dsimp only
  rw [setWriteValue_swr cfg now data w t hswr hwne httl htne]
  dsimp only
  rw [← hK, ← hENV]
  rw [setStoreWrite_server_ttl ctx now K ENV (some (t + w)) st.r st.lc hmode hw
    (by simp [optTruthy]; omega)]
  dsimp only
  rw [← hS1]
  rw [setIndexing_ok ctx cfg now K bn ⟨st.r.getFails, st.r.writeFails, S1⟩ hw hb hbk1 htags]
  dsimp only
  refine ⟨_, rfl, ?_, ?_⟩
  · dsimp only [OpState.emit]
    rw [lookupLive_put_other _ _ _ _ _ _ (Ne.symm hne), hS1]
    simp only [Option.getD_some]
    rw [lookupLive_setex_self, if_pos (by omega)]
  · dsimp only [OpState.emit]
    rw [expiryOf_put_other _ _ _ _ _ (Ne.symm hne), hS1]
    simp only [Option.getD_some]
    rw [expiryOf_setex_self]

/-- C5, witness for the amended theorem at concrete inputs. -/
theorem swrWrap_witness :
    ∃ st1, setOp ⟨"p", .server, false, {}⟩ ⟨"n", .fixed 2, some 3, false, true, []⟩
        100 "k" (.base 7) ⟨⟨false, false, ⟨[]⟩⟩, [], [], []⟩ = (st1, none) ∧
      st1.r.store.lookupLive 100 (buildCacheKey "p" "n" "k")
        = some (.str (.envelope (.base 7) (some (100 + 2 * 1000))
            (some (100 + (2 + 3) * 1000)))) ∧
      st1.r.store.expiryOf (buildCacheKey "p" "n" "k")
        = some (some (100 + (2 + 3) * 1000)) := by
  exact swrWrap_amended ⟨"p", .server, false, {}⟩ ⟨"n", .fixed 2, some 3, false, true, []⟩
    100 "k" (.base 7) ⟨⟨false, false, ⟨[]⟩⟩, [], [], []⟩ "n" 3 2
    (by decide) (by decide) (by decide) (by decide) (by decide) (by decide) (by decide)
    (by decide) (by decide) (by decide)

/-! Claim C6: the persisted key layout. -/

/-- C6, counterexample: `VersionedCache` interpolates the prefix around a key
that is already the full `prefix:name:instanceKey`, so the versioned payload
lands at `{prefix}:{prefix}:{name}:{instanceKey}:v{N}` — not at the
documented `{prefix}:{name}:{instanceKey}:v{N}`, where nothing is stored. -/
theorem keyLayout_cex :
    versionedKeyOf "rc" (buildCacheKey "rc" "user" "1") 0 = "rc:rc:user:1:v0" ∧
    specVersionedPayloadKey "rc" "user" "1" 0 = "rc:user:1:v0" ∧
    versionedKeyOf "rc" (buildCacheKey "rc" "user" "1") 0
      ≠ specVersionedPayloadKey "rc" "user" "1" 0 ∧
    ((versionedSet "rc" 100 (buildCacheKey "rc" "user" "1") (.base 7) none
        ⟨false, false, ⟨[]⟩⟩).map
      (fun r1 => (r1.store.lookupLive 100 "rc:rc:user:1:v0",
                  r1.store.lookupLive 100 "rc:user:1:v0")))
      = .ok (some (.str (.base 7)), none) := by
  refine ⟨?_, ?_, ?_, ?_⟩ <;> decide

/-- C6, amended: with colon-free prefix and cache name, primary payload keys
are `{prefix}:{name}:{instanceKey}`, tag sets are `{prefix}:tag:{tag}` (and
`addTags` records the key there), pattern buckets are
`{prefix}:pattern:{name}` (and `trackKey` records the key there), version
counters are `{prefix}:version:{prefix}:{name}:{instanceKey}`, and versioned
payload keys are `{prefix}:{prefix}:{name}:{instanceKey}:v{N}` — the prefix
doubled, never the documented single-prefix
`{prefix}:{name}:{instanceKey}:v{N}`. -/
theorem keyLayout_amended :
    ∀ (pfx name ikey tag : String) (v now : Nat) (r : Redis),
      ¬ pfx.data.contains ':' → ¬ name.data.contains ':' →
      r.writeFails = false →
      r.store.liveEntry now (tagKeyOf pfx tag) = none →
      r.store.liveEntry now (patternKeyOf pfx name) = none →
      buildCacheKey pfx name ikey = pfx ++ ":" ++ name ++ ":" ++ ikey ∧
      (tagKeyOf pfx tag = pfx ++ ":tag:" ++ tag ∧
        addTags pfx now (buildCacheKey pfx name ikey) [tag] r
          = .ok ⟨r.getFails, r.writeFails,
              r.store.put (tagKeyOf pfx tag) (.sset [buildCacheKey pfx name ikey]) none⟩) ∧
      (patternKeyOf pfx name = pfx ++ ":pattern:" ++ name ∧
        trackKey pfx now (buildCacheKey pfx name ikey) r
          = .ok ⟨r.getFails, r.writeFails,
              r.store.put (patternKeyOf pfx name) (.sset [buildCacheKey pfx name ikey]) none⟩) ∧
      versionKeyOf pfx (buildCacheKey pfx name ikey)
        = pfx ++ ":version:" ++ (pfx ++ ":" ++ name ++ ":" ++ ikey) ∧
      (versionedKeyOf pfx (buildCacheKey pfx name ikey) v
          = pfx ++ ":" ++ (pfx ++ ":" ++ name ++ ":" ++ ikey) ++ ":v" ++ toString v ∧
        versionedKeyOf pfx (buildCacheKey pfx name ikey) v
          ≠ specVersionedPayloadKey pfx name ikey v) := by
  intro pfx name ikey tag v now r hp hn hw htag hpat
  refine ⟨rfl, ⟨rfl, ?_⟩, ⟨rfl, ?_⟩, rfl, rfl, ?_⟩
  · unfold addTags
    rw [rsadd_fresh_ok r now (tagKeyOf pfx tag) (buildCacheKey pfx name ikey) hw htag]
    rfl
  · exact trackKey_ok pfx now _ name r hw (bucketName_buildCacheKey pfx name ikey hp hn) hpat
  · intro h
    have hcolon : (":" : String).length = 1 := rfl
    have hl := congrArg String.length h
    simp only [versionedKeyOf, specVersionedPayloadKey, buildCacheKey,
      String.length_append] at hl
    omega

/-- C6, witness for the amended theorem at concrete inputs. -/
theorem keyLayout_witness :
    buildCacheKey "rc" "user" "1" = "rc" ++ ":" ++ "user" ++ ":" ++ "1" ∧
    addTags "rc" 100 (buildCacheKey "rc" "user" "1") ["t"] ⟨false, false, ⟨[]⟩⟩
      = .ok ⟨false, false, Store.put ⟨[]⟩ (tagKeyOf "rc" "t")
          (.sset [buildCacheKey "rc" "user" "1"]) none⟩ ∧
    trackKey "rc" 100 (buildCacheKey "rc" "user" "1") ⟨false, false, ⟨[]⟩⟩
      = .ok ⟨false, false, Store.put ⟨[]⟩ (patternKeyOf "rc" "user")
          (.sset [buildCacheKey "rc" "user" "1"]) none⟩ ∧
    versionKeyOf "rc" (buildCacheKey "rc" "user" "1")
      = "rc" ++ ":version:" ++ ("rc" ++ ":" ++ "user" ++ ":" ++ "1") ∧
    versionedKeyOf "rc" (buildCacheKey "rc" "user" "1") 0
      ≠ specVersionedPayloadKey "rc" "user" "1" 0 := by
  have h := keyLayout_amended "rc" "user" "1" "t" 0 100 ⟨false, false, ⟨[]⟩⟩
    (by decide) (by decide) rfl (by decide) (by decide)
  exact ⟨h.1, h.2.1.2, h.2.2.1.2, h.2.2.2.1, h.2.2.2.2.2⟩

/-! Claim C8: pattern invalidation scoped to one cache name. -/

lemma stripColonStar_no_star (xs : List Char) (h : ¬ xs.contains '*') :
    stripColonStar xs = xs := by
  induction xs with
  | nil => rfl
  | cons a xs ih =>
      cases xs with
      | nil => rfl
      | cons b ys =>
          obtain ⟨_, hxs⟩ := not_contains_head_tail h
          obtain ⟨hb, _⟩ := not_contains_head_tail hxs
          rw [stripColonStar, if_neg (fun hcd => hb hcd.2), ih hxs]

lemma contains_append_left {c : Char} {xs ys : List Char} (h : ¬ (xs ++ ys).contains c) :
    ¬ xs.contains c := by
  intro hc
  apply h
  simp only [List.contains] at hc ⊢
  exact List.elem_iff.mpr (List.mem_append_left ys (List.elem_iff.mp hc))

lemma contains_append_right {c : Char} {xs ys : List Char} (h : ¬ (xs ++ ys).contains c) :
    ¬ ys.contains c := by
  intro hc
  apply h
  simp only [List.contains] at hc ⊢
  exact List.elem_iff.mpr (List.mem_append_right xs (List.elem_iff.mp hc))

lemma contains_append_of (c : Char) (xs ys : List Char)
    (hx : ¬ xs.contains c) (hy : ¬ ys.contains c) : ¬ (xs ++ ys).contains c := by
  intro hc
  simp only [List.contains] at hc
  rcases List.mem_append.mp (List.elem_iff.mp hc) with h1 | h2
  · exact hx (by simp only [List.contains]; exact List.elem_iff.mpr h1)
  · exact hy (by simp only [List.contains]; exact List.elem_iff.mpr h2)

/-- C8: in server mode, `invalidatePattern` on `name:*` (colon- and
star-free prefix and names) removes exactly the bucket members: every
tracked key of cache `n1` is deleted from the store, every key of a
different cache name `n2` is untouched, the candidate bucket is the
pattern text before the first wildcard, and a wildcard-free pattern
returns the raw bucket members with no glob filtering. -/
theorem invalidatePattern_scoped :
    ∀ (pfx n1 n2 : String) (members : List String) (r : Redis) (lc : LocalStore)
      (now : Nat) (le : Bool) (cbc : CBConfig),
      ¬ pfx.data.contains ':' → ¬ pfx.data.contains '*' →
      ¬ n1.data.contains ':' → ¬ n1.data.contains '*' →
      ¬ n2.data.contains ':' → n2 ≠ n1 →
      r.getFails = false → r.writeFails = false →
      r.store.smembers now (patternKeyOf pfx n1) = .ok members →
      members ≠ [] →
      (∀ m ∈ members, ∃ k, m = buildCacheKey pfx n1 k) →
      (∃ r1 lc1,
        invalidatePatternOp ⟨pfx, .server, le, cbc⟩ now (n1 ++ ":*") r lc
          = .ok (r1, lc1, members) ∧
        (∀ m ∈ members, r1.store.lookupLive now m = none) ∧
        (∀ k2, r1.store.lookupLive now (buildCacheKey pfx n2 k2)
          = r.store.lookupLive now (buildCacheKey pfx n2 k2))) ∧
      (∀ p2 : String, ¬ p2.data.contains '*' →
        getKeysByPattern pfx now p2 r = r.rsmembers now (patternKeyOf pfx p2)) := by
  intro pfx n1 n2 members r lc now le cbc hp hps hn1 hn1s hn2 hnn hgf hwf hsm hnemp hcov
  have hbase : String.mk (stripColonStar ((n1 ++ ":*") : String).data) = n1 := by
    have hd : ((n1 ++ ":*") : String).data = n1.data ++ ':' :: '*' :: [] := by
      rw [String.data_append]
    rw [hd, stripColonStar_append n1.data [] hn1]
  have hstar : ((n1 ++ ":*") : String).data.contains '*' = true := by
    simp only [List.contains, String.data_append]
    exact List.elem_iff.mpr (List.mem_append_right _ (by simp))
  have hglob : ∀ m ∈ members,
      globMatch ((pfx ++ ":" ++ (n1 ++ ":*")) : String).data m.data = true := by
    intro m hm
    obtain ⟨k, hk⟩ := hcov m hm
    have hX : ¬ (pfx.data ++ ':' :: (n1.data ++ [':'])).contains '*' := by
      refine contains_append_of '*' _ _ hps ?_
      intro hc
      have hmem : '*' ∈ n1.data := by simpa [List.contains] using hc
      exact hn1s (by simp only [List.contains]; exact List.elem_iff.mpr hmem)
    have ht := globMatch_trailing_star (pfx.data ++ ':' :: (n1.data ++ [':'])) hX k.data
    rw [hk]
    have hpat : ((pfx ++ ":" ++ (n1 ++ ":*")) : String).data
        = (pfx.data ++ ':' :: (n1.data ++ [':'])) ++ ['*'] := by
      simp [String.data_append]
    have hsubj : (buildCacheKey pfx n1 k).data
        = (pfx.data ++ ':' :: (n1.data ++ [':'])) ++ k.data := by
      rw [data_buildCacheKey]
      simp
    rw [hpat, hsubj, ht]
  have hfilt : members.filter
      (fun k => globMatch ((pfx ++ ":" ++ (n1 ++ ":*")) : String).data k.data) = members :=
    List.filter_eq_self.mpr hglob
  have hnotmem : ∀ k2, buildCacheKey pfx n2 k2 ∉ members := by
    intro k2 hk2
    obtain ⟨k, hk⟩ := hcov _ hk2
    have h1 := bucketName_buildCacheKey pfx n2 k2 hp hn2
    rw [hk, bucketName_buildCacheKey pfx n1 k hp hn1] at h1
    exact hnn (Option.some.inj h1).symm
  have hcomp : invalidatePatternOp ⟨pfx, .server, le, cbc⟩ now (n1 ++ ":*") r lc
      = .ok (⟨r.getFails, r.writeFails, r.store.del members⟩,
          if le then members.foldl lcDelete lc else lc, members) := by
    unfold invalidatePatternOp getKeysByPattern
    dsimp only
    rw [hbase]
    unfold Redis.rsmembers
    rw [hgf]
    simp only [Bool.false_eq_true, if_false]
    rw [hsm]
    dsimp only
    rw [if_pos hstar]
    dsimp only
    rw [hfilt]
    have hie : members.isEmpty ≠ true := by
      simpa [List.isEmpty_iff] using hnemp
    rw [if_neg hie]
    unfold Redis.rdel
    rw [hwf]
    simp only [Bool.false_eq_true, if_false, hgf, hwf]
  refine ⟨⟨_, _, hcomp, ?_, ?_⟩, ?_⟩
  · intro m hm
    exact lookupLive_del_mem r.store now members m hm
  · intro k2
    exact lookupLive_del_not_mem r.store now members _ (hnotmem k2)
  · intro p2 hstar2
    unfold getKeysByPattern
    dsimp only
    rw [stripColonStar_no_star p2.data hstar2]
    have heta : String.mk p2.data = p2 := rfl
    rw [heta]
    cases h : r.rsmembers now (patternKeyOf pfx p2) with
    | error e => rfl
    | ok keys =>
        dsimp only
        rw [if_neg hstar2]

/-- C8, witness at concrete inputs: two tracked `user` keys are removed,
a `post` key survives, and a wildcard-free pattern is unfiltered. -/
theorem invalidatePattern_witness :
    (∃ r1 lc1,
      invalidatePatternOp ⟨"p", .server, false, {}⟩ 100 ("user" ++ ":*")
        ⟨false, false, ⟨[⟨"p:user:1", .str (.base 1), none⟩,
          ⟨"p:user:2", .str (.base 2), none⟩,
          ⟨"p:post:1", .str (.base 3), none⟩,
          ⟨"p:pattern:user", .sset ["p:user:1", "p:user:2"], none⟩]⟩⟩ []
        = .ok (r1, lc1, ["p:user:1", "p:user:2"]) ∧
      (∀ m ∈ (["p:user:1", "p:user:2"] : List String),
        r1.store.lookupLive 100 m = none) ∧
      (∀ k2, r1.store.lookupLive 100 (buildCacheKey "p" "post" k2)
        = Store.lookupLive ⟨[⟨"p:user:1", .str (.base 1), none⟩,
            ⟨"p:user:2", .str (.base 2), none⟩,
            ⟨"p:post:1", .str (.base 3), none⟩,
            ⟨"p:pattern:user", .sset ["p:user:1", "p:user:2"], none⟩]⟩ 100
            (buildCacheKey "p" "post" k2))) ∧
    (∀ p2 : String, ¬ p2.data.contains '*' →
      getKeysByPattern "p" 100 p2
          ⟨false, false, ⟨[⟨"p:user:1", .str (.base 1), none⟩,
            ⟨"p:user:2", .str (.base 2), none⟩,
            ⟨"p:post:1", .str (.base 3), none⟩,
            ⟨"p:pattern:user", .sset ["p:user:1", "p:user:2"], none⟩]⟩⟩
        = Redis.rsmembers ⟨false, false, ⟨[⟨"p:user:1", .str (.base 1), none⟩,
            ⟨"p:user:2", .str (.base 2), none⟩,
            ⟨"p:post:1", .str (.base 3), none⟩,
            ⟨"p:pattern:user", .sset ["p:user:1", "p:user:2"], none⟩]⟩⟩ 100
            (patternKeyOf "p" p2)) := by
  exact invalidatePattern_scoped "p" "user" "post" ["p:user:1", "p:user:2"]
    ⟨false, false, ⟨[⟨"p:user:1", .str (.base 1), none⟩,
      ⟨"p:user:2", .str (.base 2), none⟩,
      ⟨"p:post:1", .str (.base 3), none⟩,
      ⟨"p:pattern:user", .sset ["p:user:1", "p:user:2"], none⟩]⟩⟩ [] 100 false {}
    (by decide) (by decide) (by decide) (by decide) (by decide) (by decide)
    rfl rfl (by decide) (by decide)
    (by
      intro m hm
      simp only [List.mem_cons, List.not_mem_nil, or_false] at hm
      rcases hm with h | h
      · exact ⟨"1", by rw [h]; decide⟩
      · exact ⟨"2", by rw [h]; decide⟩)

/-! Claim C9: envelope detection is by shape, not by a flag. -/

lemma envelope_ne_data (d : JVal) (e s : Option Nat) : JVal.envelope d e s ≠ d := by
  intro h
  have h1 := congrArg sizeOf h
  simp at h1
  omega

/-- C9: a stored payload shaped like an envelope (an object with both a
`data` and an `expiresAt` property) is always unwrapped by server-mode
`get`: the caller receives the object's `data` field — never the stored
object itself — with staleness judged from its own timestamps, even though
`set` with no stale-while-revalidate configured stored that object
unchanged as a plain value. -/
theorem envelope_shape_unwrap :
    ∀ (ctx : Ctx) (cfg : DefCfg) (now : Nat) (ikey : String) (d : JVal)
      (e s : Option Nat) (fr : Except Unit (Option JVal)) (dd : DedupState)
      (cb : CBState) (st : OpState),
      cfg.swr = none →
      ctx.localEnabled = false →
      cfg.isSliding = false →
      cb.status = .closed →
      st.r.getFails = false →
      lcGet st.lc now (buildCacheKey ctx.pfx cfg.name ikey) = none →
      st.r.store.lookupLive now (buildCacheKey ctx.pfx cfg.name ikey)
        = some (.str (.envelope d e s)) →
      (unwrapValue now (.envelope d e s)).isPastStale = false →
      ((unwrapValue now (.envelope d e s)).isStale && cfg.hasFetch) = false →
      (setWriteValue cfg now (.envelope d e s)).1 = .envelope d e s ∧
      (serverGet ctx cfg now ikey fr dd cb st).result = .ok (some d) ∧
      (serverGet ctx cfg now ikey fr dd cb st).result
        ≠ .ok (some (.envelope d e s)) := by
  intro ctx cfg now ikey d e s fr dd cb st hswr hle hsl hcb hgf hlc hv hps hst
  have hmain : (serverGet ctx cfg now ikey fr dd cb st).result = .ok (some d) := by
    unfold serverGet
    dsimp only
    rw [localPhase_fall ctx cfg now (buildCacheKey ctx.pfx cfg.name ikey) st hlc]
    dsimp only
    rw [cbEntry_closed cb now hcb]
    dsimp only
    rw [primaryRead_hit_fresh ctx cfg now ikey (buildCacheKey ctx.pfx cfg.name ikey)
      fr dd st (.envelope d e s) hgf hv hps hst hsl hle]
    rfl
  refine ⟨?_, hmain, ?_⟩
  · rw [setWriteValue_noswr cfg now (.envelope d e s) hswr]
  · rw [hmain]
    intro h
    exact envelope_ne_data d e s (Option.some.inj (Except.ok.inj h)).symm

/-- C9, witness at concrete inputs: the envelope `{data: 7, expiresAt: 200}`
stored as a plain value is returned as `7` at time 100, not as the
object. -/
theorem envelope_shape_witness :
    (setWriteValue ⟨"n", .absent, none, false, true, []⟩ 100
        (.envelope (.base 7) (some 200) none)).1
      = .envelope (.base 7) (some 200) none ∧
    (serverGet ⟨"p", .server, false, {}⟩ ⟨"n", .absent, none, false, true, []⟩ 100 "k"
        (.ok none) [] ⟨.closed, 0, 0, 0⟩
        ⟨⟨false, false, ⟨[⟨"p:n:k", .str (.envelope (.base 7) (some 200) none), none⟩]⟩⟩,
          [], [], []⟩).result = .ok (some (.base 7)) ∧
    (serverGet ⟨"p", .server, false, {}⟩ ⟨"n", .absent, none, false, true, []⟩ 100 "k"
        (.ok none) [] ⟨.closed, 0, 0, 0⟩
        ⟨⟨false, false, ⟨[⟨"p:n:k", .str (.envelope (.base 7) (some 200) none), none⟩]⟩⟩,
          [], [], []⟩).result ≠ .ok (some (.envelope (.base 7) (some 200) none)) := by
  exact envelope_shape_unwrap ⟨"p", .server, false, {}⟩ ⟨"n", .absent, none, false, true, []⟩
    100 "k" (.base 7) (some 200) none (.ok none) [] ⟨.closed, 0, 0, 0⟩
    ⟨⟨false, false, ⟨[⟨"p:n:k", .str (.envelope (.base 7) (some 200) none), none⟩]⟩⟩,
      [], [], []⟩
    (by decide) (by decide) (by decide) (by decide) (by decide) (by decide) (by decide)
    (by decide) (by decide)

/-! Claim C2: the circuit breaker state machine. -/

lemma onFailure_spec (cfg : CBConfig) (now : Nat) (s : CBState) :
    CircuitBreaker.onFailure cfg now s
      = if cfg.threshold ≤ s.failures + 1 then
          ⟨.opened, s.failures + 1, now + cfg.timeout, s.halfOpenSuccesses⟩
        else ⟨s.status, s.failures + 1, s.nextAttempt, s.halfOpenSuccesses⟩ := by
  unfold CircuitBreaker.onFailure
  dsimp only

lemma onSuccess_spec (cfg : CBConfig) (s : CBState) :
    CircuitBreaker.onSuccess cfg s
      = if s.status == .halfOpen then
          (if cfg.halfOpenRequests ≤ s.halfOpenSuccesses + 1 then
            ⟨.closed, 0, s.nextAttempt, s.halfOpenSuccesses + 1⟩
          else ⟨s.status, s.failures, s.nextAttempt, s.halfOpenSuccesses + 1⟩)
        else ⟨s.status, 0, s.nextAttempt, s.halfOpenSuccesses⟩ := by
  unfold CircuitBreaker.onSuccess
  dsimp only

lemma entry_of_not_opened (s : CBState) (now : Nat) (h : s.status ≠ .opened) :
    CircuitBreaker.entry s now = some s := by
  unfold CircuitBreaker.entry
  rw [if_neg (by simp [h])]

lemma executeStep_fst_none (cfg : CBConfig) (s : CBState) (now : Nat) (pf : Bool)
    (hentry : CircuitBreaker.entry s now = none) :
    CircuitBreaker.executeStep cfg s now pf = (s, .fallbackOnly) := by
  unfold CircuitBreaker.executeStep
  rw [hentry]

lemma executeStep_fail (cfg : CBConfig) (s s1 : CBState) (now : Nat)
    (hentry : CircuitBreaker.entry s now = some s1) :
    CircuitBreaker.executeStep cfg s now true
      = (CircuitBreaker.onFailure cfg now s1, .primaryFailure) := by
  unfold CircuitBreaker.executeStep
  rw [hentry]
  rfl

lemma executeStep_succ (cfg : CBConfig) (s s1 : CBState) (now : Nat)
    (hentry : CircuitBreaker.entry s now = some s1) :
    CircuitBreaker.executeStep cfg s now false
      = (CircuitBreaker.onSuccess cfg s1, .primarySuccess) := by
  unfold CircuitBreaker.executeStep
  rw [hentry]
  rfl

lemma cbEntry_not_opened (s s1 : CBState) (now : Nat)
    (h : CircuitBreaker.entry s now = some s1) :
    s1.status ≠ .opened ∧ s1.failures = s.failures ∧
    (s1.status = .closed → s.status = .closed) := by
  unfold CircuitBreaker.entry at h
  by_cases hs : s.status == .opened
  · rw [if_pos hs] at h
    by_cases ht : now < s.nextAttempt
    · rw [if_pos ht] at h
      cases h
    · rw [if_neg ht] at h
      cases h
      refine ⟨by simp, rfl, ?_⟩
      intro hcl
      cases hcl
  · rw [if_neg hs] at h
    cases h
    exact ⟨by simpa using hs, rfl, fun hcl => hcl⟩

lemma cb_failures_invariant (cfg : CBConfig) (s : CBState) (h : CBReachable cfg s) :
    s.status ≠ .closed → cfg.threshold ≤ s.failures := by
  induction h with
  | init => intro hs; exact absurd rfl hs
  | reset s hr => intro hs; exact absurd rfl hs
  | step s now pf hr ih =>
      intro hs
      cases hentry : CircuitBreaker.entry s now with
      | none =>
          rw [executeStep_fst_none cfg s now pf hentry] at hs ⊢
          exact ih hs
      | some s1 =>
          obtain ⟨hs1, hfail1, hclosed1⟩ := cbEntry_not_opened s s1 now hentry
          have hstat1 : s1.status ≠ .closed → cfg.threshold ≤ s1.failures := by
            intro hne1
            rw [hfail1]
            exact ih (fun hcl => hne1 (by
              unfold CircuitBreaker.entry at hentry
              rw [if_neg (by simp [hcl]), Option.some.injEq] at hentry
              rw [← hentry, hcl]))
          cases pf with
          | true =>
              rw [executeStep_fail cfg s s1 now hentry] at hs ⊢
              rw [onFailure_spec] at hs ⊢
              by_cases hth : cfg.threshold ≤ s1.failures + 1
              · rw [if_pos hth]
                exact hth
              · rw [if_neg hth] at hs ⊢
                have := hstat1 hs
                omega
          | false =>
              rw [executeStep_succ cfg s s1 now hentry] at hs ⊢
              rw [onSuccess_spec] at hs ⊢
              by_cases hho : (s1.status == CBStatus.halfOpen) = true
              · rw [if_pos hho] at hs ⊢
                by_cases hreq : cfg.halfOpenRequests ≤ s1.halfOpenSuccesses + 1
                · rw [if_pos hreq] at hs
                  exact absurd rfl hs
                · rw [if_neg hreq] at hs ⊢
                  exact hstat1 (by
                    have hst : s1.status = CBStatus.halfOpen := by simpa using hho
                    simp [hst])
              · rw [if_neg hho] at hs
                dsimp only at hs
                cases hstat : s1.status with
                | closed => rw [hstat] at hs; exact absurd rfl hs
                | opened => exact absurd hstat hs1
                | halfOpen => exact absurd (by simp [hstat]) hho

lemma iterateFail_opens (cfg : CBConfig) (now : Nat) :
    ∀ (n : Nat) (s : CBState), s.status = .closed →
    s.failures + n = cfg.threshold → 1 ≤ n →
    iterateExec cfg now true n s
      = ⟨.opened, cfg.threshold, now + cfg.timeout, s.halfOpenSuccesses⟩ := by
  intro n
  induction n with
  | zero => intro s _ _ h1; omega
  | succ m ih =>
      intro s hs hsum _
      have hentry := entry_of_not_opened s now (by rw [hs]; simp)
      unfold iterateExec
      rw [executeStep_fail cfg s s now hentry, onFailure_spec]
      by_cases hm : m = 0
      · subst hm
        rw [if_pos (by omega)]
        unfold iterateExec
        have : s.failures + 1 = cfg.threshold := by omega
        rw [this]
      · rw [if_neg (by omega)]
        have := ih ⟨s.status, s.failures + 1, s.nextAttempt, s.halfOpenSuccesses⟩
          hs (by simpa using by omega) (by omega)
        simpa using this

lemma iterateSucc_closes (cfg : CBConfig) (now : Nat) :
    ∀ (n : Nat) (s : CBState), s.status = .halfOpen →
    s.halfOpenSuccesses + n = cfg.halfOpenRequests → 1 ≤ n →
    (iterateExec cfg now false n s).status = .closed ∧
    (iterateExec cfg now false n s).failures = 0 := by
  intro n
  induction n with
  | zero => intro s _ _ h1; omega
  | succ m ih =>
      intro s hs hsum _
      have hentry := entry_of_not_opened s now (by rw [hs]; simp)
      unfold iterateExec
      rw [executeStep_succ cfg s s now hentry, onSuccess_spec, if_pos (by simp [hs])]
      by_cases hm : m = 0
      · subst hm
        rw [if_pos (by omega)]
        unfold iterateExec
        exact ⟨rfl, rfl⟩
      · rw [if_neg (by omega)]
        have := ih ⟨s.status, s.failures, s.nextAttempt, s.halfOpenSuccesses + 1⟩
          hs (by simpa using by omega) (by omega)
        simpa using this

/-- C2: the circuit breaker follows the specified state machine — it starts
closed with default configuration `(threshold, timeout, halfOpenRequests) =
(5, 30000, 3)`; from the initial state, `threshold` consecutive primary
failures open it with the cool-down clock set to `now + timeout`; while
open before the cool-down instant, `execute` answers with the fallback
alone, leaving the state untouched and never attempting the primary; the
first `execute` at or after the cool-down instant enters half-open with a
reset probe counter; `halfOpenRequests` consecutive successes from
half-open close it and reset the failure count; and in any reachable
half-open state a single failure reopens it with a freshly reset cool-down
clock. -/
theorem circuitBreaker_state_machine :
    CBState.init.status = .closed ∧
    defaultCBConfig = ⟨5, 30000, 3⟩ ∧
    (∀ (cfg : CBConfig) (now : Nat), 1 ≤ cfg.threshold →
      iterateExec cfg now true cfg.threshold CBState.init
        = ⟨.opened, cfg.threshold, now + cfg.timeout, 0⟩) ∧
    (∀ (cfg : CBConfig) (s : CBState) (now : Nat) (b : Bool),
      s.status = .opened → now < s.nextAttempt →
      CircuitBreaker.executeStep cfg s now b = (s, .fallbackOnly)) ∧
    (∀ (s : CBState) (now : Nat),
      s.status = .opened → s.nextAttempt ≤ now →
      CircuitBreaker.entry s now
        = some { s with status := .halfOpen, halfOpenSuccesses := 0 }) ∧
    (∀ (cfg : CBConfig) (s : CBState) (now : Nat),
      s.status = .halfOpen → s.halfOpenSuccesses = 0 → 1 ≤ cfg.halfOpenRequests →
      (iterateExec cfg now false cfg.halfOpenRequests s).status = .closed ∧
      (iterateExec cfg now false cfg.halfOpenRequests s).failures = 0) ∧
    (∀ (cfg : CBConfig) (s : CBState) (now : Nat),
      CBReachable cfg s → s.status = .halfOpen →
      CircuitBreaker.executeStep cfg s now true
        = (⟨.opened, s.failures + 1, now + cfg.timeout, s.halfOpenSuccesses⟩,
            .primaryFailure)) := by
  refine ⟨rfl, rfl, ?_, ?_, ?_, ?_, ?_⟩
  · intro cfg now h1
    exact iterateFail_opens cfg now cfg.threshold CBState.init rfl (by simp [CBState.init]) h1
  · intro cfg s now b hs ht
    unfold CircuitBreaker.executeStep CircuitBreaker.entry
    rw [if_pos (by simp [hs]), if_pos ht]
  · intro s now hs ht
    unfold CircuitBreaker.entry
    rw [if_pos (by simp [hs]), if_neg (by omega)]
  · intro cfg s now hs hh h1
    exact iterateSucc_closes cfg now cfg.halfOpenRequests s hs (by omega) h1
  · intro cfg s now hr hs
    have hinv : cfg.threshold ≤ s.failures :=
      cb_failures_invariant cfg s hr (by rw [hs]; simp)
    have hentry : CircuitBreaker.entry s now = some s := by
      unfold CircuitBreaker.entry
      rw [if_neg (by simp [hs])]
    rw [executeStep_fail cfg s s now hentry, onFailure_spec]
    have hth : cfg.threshold ≤ s.failures + 1 := by omega
    rw [if_pos hth]

/-- C2, witness: the state machine clauses at the default configuration and
concrete states (the reachable half-open state is built from five failures
at time 0 followed by a successful probe at the cool-down instant). -/
theorem circuitBreaker_state_machine_witness :
    iterateExec defaultCBConfig 100 true 5 CBState.init = ⟨.opened, 5, 30100, 0⟩ ∧
    CircuitBreaker.executeStep defaultCBConfig ⟨.opened, 5, 30100, 0⟩ 200 true
      = (⟨.opened, 5, 30100, 0⟩, .fallbackOnly) ∧
    CircuitBreaker.entry ⟨.opened, 5, 30100, 0⟩ 30100
      = some ⟨.halfOpen, 5, 30100, 0⟩ ∧
    ((iterateExec defaultCBConfig 40000 false 3 ⟨.halfOpen, 5, 30100, 0⟩).status
        = .closed ∧
      (iterateExec defaultCBConfig 40000 false 3 ⟨.halfOpen, 5, 30100, 0⟩).failures = 0) ∧
    CircuitBreaker.executeStep defaultCBConfig ⟨.halfOpen, 5, 30000, 1⟩ 40000 true
      = (⟨.opened, 6, 70000, 1⟩, .primaryFailure) := by
  have hreach : CBReachable defaultCBConfig ⟨.halfOpen, 5, 30000, 1⟩ := by
    have h0 : CBReachable defaultCBConfig CBState.init := .init
    have h1 : CBReachable defaultCBConfig
        (CircuitBreaker.executeStep defaultCBConfig CBState.init 0 true).1 := .step _ 0 true h0
    have h2 : CBReachable defaultCBConfig
        (CircuitBreaker.executeStep defaultCBConfig
          (CircuitBreaker.executeStep defaultCBConfig CBState.init 0 true).1 0 true).1 :=
      .step _ 0 true h1
    have h3 := CBReachable.step _ 0 true h2
    have h4 := CBReachable.step _ 0 true h3
    have h5 := CBReachable.step _ 0 true h4
    have h6 := CBReachable.step _ 30000 false h5
    exact (by decide :
      (CircuitBreaker.executeStep defaultCBConfig
        (CircuitBreaker.executeStep defaultCBConfig
          (CircuitBreaker.executeStep defaultCBConfig
            (CircuitBreaker.executeStep defaultCBConfig
              (CircuitBreaker.executeStep defaultCBConfig
                (CircuitBreaker.executeStep defaultCBConfig CBState.init 0 true).1
                0 true).1 0 true).1 0 true).1 0 true).1 30000 false).1
        = ⟨.halfOpen, 5, 30000, 1⟩) ▸ h6
  refine ⟨?_, ?_, ?_, ?_, ?_⟩
  · have h := circuitBreaker_state_machine.2.2.1 defaultCBConfig 100 (by decide)
    simpa using h
  · exact circuitBreaker_state_machine.2.2.2.1 defaultCBConfig ⟨.opened, 5, 30100, 0⟩
      200 true rfl (by decide)
  · exact circuitBreaker_state_machine.2.2.2.2.1 ⟨.opened, 5, 30100, 0⟩ 30100 rfl
      (by decide)
  · exact circuitBreaker_state_machine.2.2.2.2.2.1 defaultCBConfig
      ⟨.halfOpen, 5, 30100, 0⟩ 40000 rfl rfl (by decide)
  · have h := circuitBreaker_state_machine.2.2.2.2.2.2 defaultCBConfig
      ⟨.halfOpen, 5, 30000, 1⟩ 40000 hreach rfl
    simpa using h

end RemixCache
